import Mathlib

/-!
# Verification of the Llamux `llama_core` kernel module

Shallow embedding, in Lean 4, of the parts of the Llamux repository
(`src/llamux/kernel/llama_core/`) that the design-spec claims are about:

* the GGML float32 tensor kernels of `ggml_kernel.c`
  (`ggml_mul_mat` / `ggml_compute_forward_mul_mat_f32_f32`,
  `ggml_compute_forward_soft_max_f32`, `ggml_compute_forward_rope_f32`,
  the `GGML_OP_GET_ROWS` branch of `ggml_compute_forward`),
* the quantization codec of `quantize.c` / `quantize.h`
  (`dequantize_q4_K`, `ggml_fp16_to_fp32`),
* the inference driver of `llama_model.c` (`llama_eval`, `llama_generate`,
  the KV-cache bookkeeping of `llama_attention`),
* the GGUF file parser of `gguf_parser.c` (`gguf_parse_header`,
  `gguf_parse_metadata`, `gguf_parse_tensor_info`).

Modelling conventions:

* C `float` values are embedded as exact rationals (`ℚ`); the C kernels
  under study perform only `+ - * / <` on floats, so every kernel is a
  rational function of its inputs and translates verbatim.
* Raw bytes and machine words are `ℕ` with explicit masking (`&&&`, `>>>`,
  `% 2^w`) exactly where the C code masks or where C unsigned arithmetic
  wraps.
* Tensor data is a flat `ℕ → ℚ` map (byte buffers: `ℕ → ℕ`), indexed the
  way the C kernels index `float *` / `u8 *` pointers; dimension 0 is the
  contiguous axis, matching `nb[0] = sizeof(float)` in
  `ggml_new_tensor_impl`.  Freshly allocated tensor data reads as `0`
  everywhere, matching the `memset(tensor->data, 0, data_size)` in
  `ggml_new_tensor_impl`.
* Allocation failure (arena exhaustion, `kmalloc` returning NULL) is
  abstracted away: allocations succeed.  The only failure paths kept are
  the explicit argument/shape/format checks of the C code.
-/

namespace Llamux

/-! ## Section 1: the float32 tensor model (`struct ggml_tensor`, F32 case)

`ggml_kernel.c` stores an F32 tensor as extents `ne[0..3]` plus a flat
`float *` buffer with `nb[0] = 4`, `nb[i] = nb[i-1] * ne[i-1]`.  All
kernels the claims touch operate on the first two extents only, so the
embedded tensor is a pair of extents plus the flat buffer. -/

/-- A 2-D float32 GGML tensor: extents `ne0` (contiguous axis), `ne1`,
and the flat data buffer, `data (i1 * ne0 + i0)` being element
`[i0, i1]` exactly as the C kernels compute `x[i1 * ne00 + i0]`. -/
structure GgmlTensorF32 where
  ne0 : ℕ
  ne1 : ℕ
  data : ℕ → ℚ

/-! ### `ggml_vec_dot_f32` (`ggml_simd.h`, kernel build = scalar path)

The kernel build (`__KERNEL__` undefines `__AVX2__`) uses
`ggml_vec_dot_f32_scalar`: four accumulators, a main loop unrolled by 8
(`for (i = 0; i < n - 7; i += 8)`), a remainder loop adding into `sum0`,
and the final return `sum0 + sum1 + sum2 + sum3`.  The two loops are
embedded as well-founded recursions on `n - i`; the `i < n - 7` guard is
stated over `ℕ`, which agrees with the C `int` comparison since for
`n ≤ 7` both sides make the guard false at every reachable `i`. -/

/-- Remainder loop of `ggml_vec_dot_f32_scalar`:
`for (; i < n; i++) sum0 += x[i] * y[i];`. -/
def vecDotRem (x y : ℕ → ℚ) (n : ℕ) (i : ℕ) (s0 : ℚ) : ℚ :=
  if h : i < n then vecDotRem x y n (i + 1) (s0 + x i * y i) else s0
termination_by n - i
decreasing_by omega

/-- Main unrolled-by-8 loop of `ggml_vec_dot_f32_scalar`, carrying the
four accumulators `sum0..sum3`; on exit it runs the remainder loop (which
adds into `sum0`) and returns `sum0 + sum1 + sum2 + sum3`. -/
def vecDotMain (x y : ℕ → ℚ) (n : ℕ) (i : ℕ) (s0 s1 s2 s3 : ℚ) : ℚ :=
  if h : i < n - 7 then
    vecDotMain x y n (i + 8)
      (s0 + x i * y i + x (i + 4) * y (i + 4))
      (s1 + x (i + 1) * y (i + 1) + x (i + 5) * y (i + 5))
      (s2 + x (i + 2) * y (i + 2) + x (i + 6) * y (i + 6))
      (s3 + x (i + 3) * y (i + 3) + x (i + 7) * y (i + 7))
  else
    vecDotRem x y n i s0 + s1 + s2 + s3
termination_by n - i
decreasing_by omega

/-- `ggml_vec_dot_f32(x, y, n)` (`ggml_simd.h`). -/
def ggml_vec_dot_f32 (x y : ℕ → ℚ) (n : ℕ) : ℚ :=
  vecDotMain x y n 0 0 0 0 0

lemma vecDotRem_eq_sum (x y : ℕ → ℚ) (n : ℕ) :
    ∀ d i s0, n - i = d →
      vecDotRem x y n i s0 = s0 + ∑ k ∈ Finset.Ico i n, x k * y k := by
  intro d
  induction d with
  | zero =>
    intro i s0 hd
    rw [vecDotRem]
    have hin : ¬ i < n := by omega
    rw [dif_neg hin, Finset.Ico_eq_empty (by omega), Finset.sum_empty, add_zero]
  | succ d ih =>
    intro i s0 hd
    rw [vecDotRem]
    have hin : i < n := by omega
    rw [dif_pos hin, ih (i + 1) _ (by omega),
      Finset.sum_eq_sum_Ico_succ_bot hin]
    ring

lemma vecDotMain_eq_sum (x y : ℕ → ℚ) (n : ℕ) :
    ∀ d i s0 s1 s2 s3, n - i = d →
      vecDotMain x y n i s0 s1 s2 s3 =
        s0 + s1 + s2 + s3 + ∑ k ∈ Finset.Ico i n, x k * y k := by
  intro d
  induction d using Nat.strong_induction_on with
  | _ d ih =>
    intro i s0 s1 s2 s3 hd
    rw [vecDotMain]
    by_cases hlt : i < n - 7
    · rw [dif_pos hlt, ih (n - (i + 8)) (by omega) (i + 8) _ _ _ _ rfl]
      have hsplit : Finset.Ico i n = Finset.Ico i (i + 8) ∪ Finset.Ico (i + 8) n :=
        (Finset.Ico_union_Ico_eq_Ico (by omega) (by omega)).symm
      rw [hsplit, Finset.sum_union (by
        apply Finset.Ico_disjoint_Ico_consecutive)]
      have h8 : ∑ k ∈ Finset.Ico i (i + 8), x k * y k =
          x i * y i + x (i + 1) * y (i + 1) + x (i + 2) * y (i + 2) +
          x (i + 3) * y (i + 3) + x (i + 4) * y (i + 4) +
          x (i + 5) * y (i + 5) + x (i + 6) * y (i + 6) +
          x (i + 7) * y (i + 7) := by
        rw [Finset.sum_Ico_eq_sum_range]
        simp [Finset.sum_range_succ]
      rw [h8]
      ring
    · rw [dif_neg hlt, vecDotRem_eq_sum x y n (n - i) i s0 rfl]
      ring

/-- The kernel dot product is the mathematical dot product (exact
arithmetic): the 8-way unrolling and the four accumulators only
reassociate the sum. -/
lemma ggml_vec_dot_f32_eq_sum (x y : ℕ → ℚ) (n : ℕ) :
    ggml_vec_dot_f32 x y n = ∑ k ∈ Finset.range n, x k * y k := by
  rw [ggml_vec_dot_f32, vecDotMain_eq_sum x y n (n - 0) 0 0 0 0 0 rfl,
    Finset.range_eq_Ico]
  ring

/-! ### `ggml_mul_mat` + `ggml_compute_forward_mul_mat_f32_f32`

`ggml_mul_mat` (ggml_kernel.c:416) rejects the pair when
`a->ne[0] != b->ne[0]` (returning the NULL error value) and otherwise
allocates the F32 result with `ne = {b->ne[1], a->ne[1]}`.
`ggml_compute_forward_mul_mat_f32_f32` (ggml_kernel.c:275) then fills
`c[i * ne11 + j] = ggml_vec_dot_f32(a + i*ne00, b + j*ne10, ne00)` for
`i < ne01`, `j < ne11`.  Every flat index below `ne01 * ne11` is written
exactly once, and the result buffer was zeroed on allocation, so the
executed result is the function below.  Allocation failure is abstracted
(see header); the shape check is the one failure path kept. -/

/-- `ggml_mul_mat(ctx, a, b)` followed by execution of
`ggml_compute_forward_mul_mat_f32_f32` on the resulting node.
`none` is the NULL error return of `ggml_mul_mat`. -/
def ggml_mul_mat (a b : GgmlTensorF32) : Option GgmlTensorF32 :=
  if a.ne0 = b.ne0 then
    some { ne0 := b.ne1
           ne1 := a.ne1
           data := fun idx =>
             if idx < a.ne1 * b.ne1 then
               ggml_vec_dot_f32
                 (fun k => a.data ((idx / b.ne1) * a.ne0 + k))
                 (fun k => b.data ((idx % b.ne1) * b.ne0 + k))
                 a.ne0
             else 0 }
  else
    none

/-- Concrete 2×2 operand for the C1 witness: rows (along `ne0`) are
`(1, 2)` and `(3, 4)`. -/
def mulMatWitA : GgmlTensorF32 :=
  { ne0 := 2, ne1 := 2
    data := fun n =>
      if n = 0 then 1 else if n = 1 then 2 else
      if n = 2 then 3 else if n = 3 then 4 else 0 }

/-- Concrete 2×2 operand for the C1 witness: rows are `(5, 6)` and
`(7, 8)`. -/
def mulMatWitB : GgmlTensorF32 :=
  { ne0 := 2, ne1 := 2
    data := fun n =>
      if n = 0 then 5 else if n = 1 then 6 else
      if n = 2 then 7 else if n = 3 then 8 else 0 }

end Llamux

namespace Llamux

/-- **C1.** For every pair of float32 tensors `A`, `B`, `ggml_mul_mat(A, B)`
succeeds exactly when `A.ne[0] = B.ne[0]` (returning the NULL error value
otherwise), the result has shape `[B.ne[1], A.ne[1]]`, and after execution
of `ggml_compute_forward_mul_mat_f32_f32` the element at index `[j, i]`
(flat offset `i * B.ne[1] + j`) equals `∑_{k < A.ne[0]} A[k, i] * B[k, j]`
— the `A · Bᵀ` convention. -/
theorem ggml_mul_mat_spec (a b : GgmlTensorF32) :
    ((ggml_mul_mat a b).isSome = true ↔ a.ne0 = b.ne0) ∧
    ∀ c, ggml_mul_mat a b = some c →
      c.ne0 = b.ne1 ∧ c.ne1 = a.ne1 ∧
      ∀ j i, j < b.ne1 → i < a.ne1 →
        c.data (i * b.ne1 + j) =
          ∑ k ∈ Finset.range a.ne0,
            a.data (i * a.ne0 + k) * b.data (j * b.ne0 + k) := by
  unfold ggml_mul_mat
  by_cases hne : a.ne0 = b.ne0
  · rw [if_pos hne]
    refine ⟨by simp [hne], ?_⟩
    intro c hc
    obtain rfl : _ = c := Option.some_injective _ hc
    refine ⟨rfl, rfl, ?_⟩
    intro j i hj hi
    have hidx : i * b.ne1 + j < a.ne1 * b.ne1 := by
      calc i * b.ne1 + j < i * b.ne1 + b.ne1 := by omega
        _ = (i + 1) * b.ne1 := by ring
        _ ≤ a.ne1 * b.ne1 := Nat.mul_le_mul_right _ (by omega)
    have hb1 : 0 < b.ne1 := by omega
    have hdiv : (i * b.ne1 + j) / b.ne1 = i := by
      rw [Nat.add_comm, Nat.add_mul_div_right _ _ hb1, Nat.div_eq_of_lt hj]
      omega
    have hmod : (i * b.ne1 + j) % b.ne1 = j := by
      rw [Nat.add_comm, Nat.add_mul_mod_self_right, Nat.mod_eq_of_lt hj]
    simp only [if_pos hidx, hdiv, hmod]
    rw [ggml_vec_dot_f32_eq_sum, hne]
  · rw [if_neg hne]
    exact ⟨by simp [hne], fun c hc => by simp at hc⟩

/-! ## Section 2: FP16 → FP32 conversion (`ggml_fp16_to_fp32`, quantize.h:40)

The C routine builds the bit pattern `o.u` of an IEEE-754 binary32 value
and returns the float `o.f` with those bits.  The embedding builds the
same 32-bit word over `ℕ` (C `uint32_t` arithmetic; `% 4294967296` is
written exactly where the C computation can wrap, namely the
`(exp + 112) << 23` of the renormalization branch whose `exp--` loop can
take `exp` below zero) and interprets it with the standard binary32
decode `fp32Decode`.  C float values are exact here: every binary32 value
is a rational. -/

/-- The real value of an IEEE-754 binary32 bit pattern `w`
(finite cases; `e = 255` patterns, which encode ±∞/NaN and are never
produced by `ggml_fp16_to_fp32`, are mapped to `0`). -/
def fp32Decode (w : ℕ) : ℚ :=
  if (w >>> 23) &&& 255 = 0 then
    (if (w >>> 31) &&& 1 = 0 then (1 : ℚ) else -1) *
      ((w &&& 8388607 : ℕ) : ℚ) * ((2 : ℚ) ^ (149 : ℕ))⁻¹
  else if (w >>> 23) &&& 255 = 255 then 0
  else
    (if (w >>> 31) &&& 1 = 0 then (1 : ℚ) else -1) *
      (2 : ℚ) ^ ((((w >>> 23) &&& 255 : ℕ) : ℤ) - 127) *
      (1 + ((w &&& 8388607 : ℕ) : ℚ) / 2 ^ 23)

/-- The `while ((mant & 0x400) == 0) { mant <<= 1; exp--; }` loop of the
subnormal branch of `ggml_fp16_to_fp32`.  `exp` is C `uint32_t`, so the
decrement wraps mod `2^32`.  The loop is embedded with an explicit fuel
upper bound; the caller passes fuel `16`, which exceeds the at most `10`
iterations any nonzero 10-bit mantissa needs, so the embedding agrees
with the C loop on every reachable input. -/
def fp16NormalizeGo : ℕ → ℕ → ℕ → ℕ × ℕ
  | 0, m, e => (m, e)
  | fuel + 1, m, e =>
    if m &&& 1024 = 0 then
      fp16NormalizeGo fuel (m <<< 1) ((e + 4294967295) % 4294967296)
    else (m, e)

/-- `ggml_fp16_to_fp32(h)` (quantize.h:40): branch on
`exp = (h >> 10) & 0x1f` and `mant = h & 0x3ff`; zero, renormalized
subnormal, large-finite sentinel `0xfe << 23` for infinity, `0.0f` for
NaN, and the normal rebias `(exp + 112) << 23 | mant << 13`. -/
def ggml_fp16_to_fp32 (h : ℕ) : ℚ :=
  if (h >>> 10) &&& 31 = 0 then
    if h &&& 1023 = 0 then
      fp32Decode (((h >>> 15) &&& 1) <<< 31)
    else
      fp32Decode
        ((((h >>> 15) &&& 1) <<< 31) |||
          ((((fp16NormalizeGo 16 (h &&& 1023) 1).2 + 112) % 4294967296) <<< 23) % 4294967296 |||
          (((fp16NormalizeGo 16 (h &&& 1023) 1).1 &&& 1023) <<< 13))
  else if (h >>> 10) &&& 31 = 31 then
    if h &&& 1023 = 0 then
      fp32Decode ((((h >>> 15) &&& 1) <<< 31) ||| (254 <<< 23))
    else 0
  else
    fp32Decode
      ((((h >>> 15) &&& 1) <<< 31) |||
        ((((h >>> 10) &&& 31) + 112) <<< 23) |||
        ((h &&& 1023) <<< 13))

/-- The IEEE-754 binary16 → binary32 reference value of the spec (§4.3 of
the design document): signed zero, exact subnormal `±mant·2⁻²⁴`, normal
`(−1)^sign·2^(exp−15)·(1 + mant/1024)`, the large finite sentinel of the
correct sign for ±∞, and the zero sentinel for NaN. -/
def fp16RefValue (h : ℕ) : ℚ :=
  if (h >>> 10) &&& 31 = 0 then
    if h &&& 1023 = 0 then 0
    else
      (if (h >>> 15) &&& 1 = 0 then (1 : ℚ) else -1) *
        ((h &&& 1023 : ℕ) : ℚ) * ((2 : ℚ) ^ (24 : ℕ))⁻¹
  else if (h >>> 10) &&& 31 = 31 then
    if h &&& 1023 = 0 then
      (if (h >>> 15) &&& 1 = 0 then (1 : ℚ) else -1) * 2 ^ (127 : ℕ)
    else 0
  else
    (if (h >>> 15) &&& 1 = 0 then (1 : ℚ) else -1) *
      (2 : ℚ) ^ ((((h >>> 10) &&& 31 : ℕ) : ℤ) - 15) *
      (1 + ((h &&& 1023 : ℕ) : ℚ) / 1024)

lemma fp32Decode_fields (s e m : ℕ) (hs : s ≤ 1) (he : e ≤ 255)
    (hm : m < 8388608) :
    fp32Decode ((s <<< 31) ||| (e <<< 23) ||| m) =
      if e = 0 then
        (if s = 0 then (1 : ℚ) else -1) * (m : ℚ) * ((2 : ℚ) ^ (149 : ℕ))⁻¹
      else if e = 255 then 0
      else
        (if s = 0 then (1 : ℚ) else -1) * (2 : ℚ) ^ ((e : ℤ) - 127) *
          (1 + (m : ℚ) / 2 ^ 23) := by
  have hm' : m < 2 ^ 23 := by norm_num at hm ⊢; omega
  have hword : (s <<< 31) ||| (e <<< 23) ||| m =
      s * 2147483648 + e * 8388608 + m := by
    have h1 : (s <<< 31) ||| (e <<< 23) = 2 ^ 23 * (s * 256 + e) := by
      rw [Nat.shiftLeft_eq, Nat.shiftLeft_eq,
        show s * 2 ^ 31 = 2 ^ 31 * s by ring,
        ← Nat.mul_add_lt_is_or (show e * 2 ^ 23 < 2 ^ 31 by nlinarith) s]
      ring
    rw [h1, ← Nat.mul_add_lt_is_or hm' (s * 256 + e)]
    ring
  have hsign : (s * 2147483648 + e * 8388608 + m) >>> 31 &&& 1 = s := by
    rw [Nat.shiftRight_eq_div_pow, Nat.and_one_is_mod]
    norm_num
    omega
  have hexp : (s * 2147483648 + e * 8388608 + m) >>> 23 &&& 255 = e := by
    rw [Nat.shiftRight_eq_div_pow,
      show (255 : ℕ) = 2 ^ 8 - 1 by norm_num,
      Nat.and_pow_two_sub_one_eq_mod]
    norm_num
    omega
  have hmant : (s * 2147483648 + e * 8388608 + m) &&& 8388607 = m := by
    rw [show (8388607 : ℕ) = 2 ^ 23 - 1 by norm_num,
      Nat.and_pow_two_sub_one_eq_mod]
    norm_num
    omega
  rw [hword]
  unfold fp32Decode
  rw [hsign, hexp, hmant]

/-! Mask-to-remainder helpers for evaluating the bit-level definitions at
concrete inputs (`x &&& (2^k − 1) = x % 2^k` at the mask constants the C
code uses). -/

lemma and_mask_1 (x : ℕ) : x &&& 1 = x % 2 := Nat.and_one_is_mod x

lemma and_mask_3 (x : ℕ) : x &&& 3 = x % 4 := by
  have := Nat.and_pow_two_sub_one_eq_mod x 2
  norm_num at this
  exact this

lemma and_mask_15 (x : ℕ) : x &&& 15 = x % 16 := by
  have := Nat.and_pow_two_sub_one_eq_mod x 4
  norm_num at this
  exact this

lemma and_mask_31 (x : ℕ) : x &&& 31 = x % 32 := by
  have := Nat.and_pow_two_sub_one_eq_mod x 5
  norm_num at this
  exact this

lemma and_mask_63 (x : ℕ) : x &&& 63 = x % 64 := by
  have := Nat.and_pow_two_sub_one_eq_mod x 6
  norm_num at this
  exact this

lemma and_mask_255 (x : ℕ) : x &&& 255 = x % 256 := by
  have := Nat.and_pow_two_sub_one_eq_mod x 8
  norm_num at this
  exact this

lemma and_mask_1023 (x : ℕ) : x &&& 1023 = x % 1024 := by
  have := Nat.and_pow_two_sub_one_eq_mod x 10
  norm_num at this
  exact this

lemma and_mask_8388607 (x : ℕ) : x &&& 8388607 = x % 8388608 := by
  have := Nat.and_pow_two_sub_one_eq_mod x 23
  norm_num at this
  exact this

lemma and_1024_eq_zero_iff {m : ℕ} (h : m < 2048) :
    m &&& 1024 = 0 ↔ m < 1024 := by
  rw [show (1024 : ℕ) = 2 ^ 10 by norm_num, Nat.and_two_pow]
  cases hB : Nat.testBit m 10 with
  | false =>
    simp only [Bool.toNat_false, zero_mul]
    rw [Nat.testBit_to_div_mod] at hB
    have hd := of_decide_eq_false hB
    norm_num at hd ⊢
    omega
  | true =>
    simp only [Bool.toNat_true, one_mul]
    rw [Nat.testBit_to_div_mod] at hB
    have hd := of_decide_eq_true hB
    norm_num at hd ⊢
    omega

lemma fp16NormalizeGo_spec :
    ∀ fuel m e, 0 < m → m < 2048 → e < 4294967296 → 2048 ≤ 2 ^ fuel * m →
      ∃ t, 1024 ≤ m * 2 ^ t ∧ m * 2 ^ t < 2048 ∧
        fp16NormalizeGo fuel m e =
          (m * 2 ^ t, (e + t * 4294967295) % 4294967296) := by
  intro fuel
  induction fuel with
  | zero =>
    intro m e hm0 hm2 _ hbig
    simp only [pow_zero, one_mul] at hbig
    omega
  | succ fuel ih =>
    intro m e hm0 hm2 he hbig
    rw [fp16NormalizeGo]
    by_cases hbit : m &&& 1024 = 0
    · have hmlt : m < 1024 := (and_1024_eq_zero_iff hm2).mp hbit
      rw [if_pos hbit]
      have hshift : m <<< 1 = 2 * m := by rw [Nat.shiftLeft_eq]; ring
      obtain ⟨t, h1, h2, hgo⟩ :=
        ih (m <<< 1) ((e + 4294967295) % 4294967296)
          (by omega) (by omega) (by omega)
          (by rw [hshift]; calc (2048 : ℕ) ≤ 2 ^ (fuel + 1) * m := hbig
                _ = 2 ^ fuel * (2 * m) := by ring)
      refine ⟨t + 1, ?_, ?_, ?_⟩
      · calc (1024 : ℕ) ≤ m <<< 1 * 2 ^ t := h1
          _ = m * 2 ^ (t + 1) := by rw [hshift]; ring
      · calc m * 2 ^ (t + 1) = m <<< 1 * 2 ^ t := by rw [hshift]; ring
          _ < 2048 := h2
      · rw [hgo, hshift]
        have e1 : 2 * m * 2 ^ t = m * 2 ^ (t + 1) := by ring
        have e2 : ((e + 4294967295) % 4294967296 + t * 4294967295) %
            4294967296 = (e + (t + 1) * 4294967295) % 4294967296 := by
          omega
        rw [e1, e2]
    · rw [if_neg hbit]
      have hmge : 1024 ≤ m := by
        by_contra hlt
        exact hbit ((and_1024_eq_zero_iff hm2).mpr (by omega))
      exact ⟨0, by omega, by omega, by
        simp only [pow_zero, mul_one, zero_mul, add_zero,
          Nat.mod_eq_of_lt he]⟩

/-- **C3.** For every 16-bit input `h` (the masking of the C routine makes
the statement true for every `ℕ`), `ggml_fp16_to_fp32(h)` returns the
IEEE-754 binary16→binary32 reference value: signed zero for
`exp = 0, mant = 0`; the exact renormalized subnormal value
`±mant·2⁻²⁴` for `exp = 0, mant ≠ 0`; `(−1)^sign·2^(exp−15)·(1+mant/1024)`
for `0 < exp < 31`; the large finite sentinel `±2¹²⁷` (bit pattern
`0xfe << 23`) of the correct sign for infinity; and the zero sentinel for
NaN. -/
theorem ggml_fp16_to_fp32_correct (h : ℕ) :
    ggml_fp16_to_fp32 h = fp16RefValue h := by
  have hs : (h >>> 15) &&& 1 ≤ 1 := Nat.and_le_right
  have hex : (h >>> 10) &&& 31 ≤ 31 := Nat.and_le_right
  have hmn : h &&& 1023 ≤ 1023 := Nat.and_le_right
  unfold ggml_fp16_to_fp32 fp16RefValue
  by_cases hexp0 : (h >>> 10) &&& 31 = 0
  · rw [if_pos hexp0, if_pos hexp0]
    by_cases hm0 : h &&& 1023 = 0
    · rw [if_pos hm0, if_pos hm0]
      have hor : ((h >>> 15) &&& 1) <<< 31 =
          (((h >>> 15) &&& 1) <<< 31) ||| (0 <<< 23) ||| 0 := by simp
      rw [hor, fp32Decode_fields _ 0 0 hs (by norm_num) (by norm_num)]
      simp
    · rw [if_neg hm0, if_neg hm0]
      set mn := h &&& 1023 with hmn_def
      have hmpos : 0 < mn := Nat.pos_of_ne_zero hm0
      obtain ⟨t, h1, h2, hgo⟩ :=
        fp16NormalizeGo_spec 16 mn 1 hmpos (by omega) (by norm_num)
          (by calc (2048 : ℕ) ≤ 2 ^ 16 * 1 := by norm_num
              _ ≤ 2 ^ 16 * mn := Nat.mul_le_mul_left _ hmpos)
      have ht : t ≤ 10 := by
        by_contra hcon
        push_neg at hcon
        have h11 : (2 : ℕ) ^ 11 ≤ 2 ^ t := Nat.pow_le_pow_right (by norm_num) hcon
        have : 2048 ≤ mn * 2 ^ t := by
          calc (2048 : ℕ) = 1 * 2 ^ 11 := by norm_num
            _ ≤ mn * 2 ^ t := Nat.mul_le_mul hmpos h11
        omega
      simp only [hgo]
      set M := mn * 2 ^ t with hM_def
      have he2 : ((1 + t * 4294967295) % 4294967296 + 112) % 4294967296 =
          113 - t := by omega
      have hmask : M &&& 1023 = M - 1024 := by
        rw [show (1023 : ℕ) = 2 ^ 10 - 1 by norm_num,
          Nat.and_pow_two_sub_one_eq_mod]
        norm_num
        omega
      rw [he2, hmask]
      have hshift23 : ((113 - t) <<< 23) % 4294967296 = (113 - t) <<< 23 := by
        apply Nat.mod_eq_of_lt
        rw [Nat.shiftLeft_eq]
        calc (113 - t) * 2 ^ 23 ≤ 113 * 2 ^ 23 :=
              Nat.mul_le_mul_right _ (by omega)
          _ < 4294967296 := by norm_num
      rw [hshift23]
      rw [fp32Decode_fields _ (113 - t) ((M - 1024) <<< 13) hs (by omega) (by
        rw [Nat.shiftLeft_eq]
        calc (M - 1024) * 2 ^ 13 ≤ 1023 * 2 ^ 13 :=
              Nat.mul_le_mul_right _ (by omega)
          _ < 8388608 := by norm_num)]
      rw [if_neg (by omega : ¬(113 - t = 0)),
        if_neg (by omega : ¬(113 - t = 255))]
      have hfactor :
          (2 : ℚ) ^ (((113 - t : ℕ) : ℤ) - 127) *
              (1 + (((M - 1024) <<< 13 : ℕ) : ℚ) / 2 ^ 23) =
            (mn : ℚ) * ((2 : ℚ) ^ (24 : ℕ))⁻¹ := by
        rw [Nat.shiftLeft_eq]
        rw [show (((113 - t : ℕ) : ℤ) - 127) = -(14 + (t : ℤ)) by omega]
        rw [zpow_neg]
        rw [show (14 + (t : ℤ)) = ((14 + t : ℕ) : ℤ) by push_cast; ring,
          zpow_natCast]
        have hMc : ((M : ℕ) : ℚ) = (mn : ℚ) * 2 ^ t := by
          rw [hM_def]; push_cast; ring
        have hsub : (((M - 1024) * 2 ^ 13 : ℕ) : ℚ) =
            ((mn : ℚ) * 2 ^ t - 1024) * 2 ^ 13 := by
          push_cast [Nat.cast_sub (show 1024 ≤ M by omega)]
          rw [hMc]
          norm_num
        rw [hsub, pow_add]
        have h2t : (0 : ℚ) < 2 ^ t := by positivity
        field_simp
        ring
      calc (if (h >>> 15) &&& 1 = 0 then (1 : ℚ) else -1) *
            (2 : ℚ) ^ (((113 - t : ℕ) : ℤ) - 127) *
            (1 + (((M - 1024) <<< 13 : ℕ) : ℚ) / 2 ^ 23)
          = (if (h >>> 15) &&& 1 = 0 then (1 : ℚ) else -1) *
            ((2 : ℚ) ^ (((113 - t : ℕ) : ℤ) - 127) *
              (1 + (((M - 1024) <<< 13 : ℕ) : ℚ) / 2 ^ 23)) := by ring
        _ = (if (h >>> 15) &&& 1 = 0 then (1 : ℚ) else -1) *
            ((mn : ℚ) * ((2 : ℚ) ^ (24 : ℕ))⁻¹) := by rw [hfactor]
        _ = (if (h >>> 15) &&& 1 = 0 then (1 : ℚ) else -1) *
            (mn : ℚ) * ((2 : ℚ) ^ (24 : ℕ))⁻¹ := by ring
  · rw [if_neg hexp0, if_neg hexp0]
    by_cases hexp31 : (h >>> 10) &&& 31 = 31
    · rw [if_pos hexp31, if_pos hexp31]
      by_cases hm0 : h &&& 1023 = 0
      · rw [if_pos hm0, if_pos hm0]
        have hor : (((h >>> 15) &&& 1) <<< 31) ||| (254 <<< 23) =
            (((h >>> 15) &&& 1) <<< 31) ||| (254 <<< 23) ||| 0 := by simp
        rw [hor, fp32Decode_fields _ 254 0 hs (by norm_num) (by norm_num)]
        rw [if_neg (by norm_num : ¬(254 = 0)),
          if_neg (by norm_num : ¬(254 = 255))]
        rw [show (((254 : ℕ) : ℤ) - 127) = ((127 : ℕ) : ℤ) by norm_num,
          zpow_natCast]
        push_cast
        ring
      · rw [if_neg hm0, if_neg hm0]
    · rw [if_neg hexp31, if_neg hexp31]
      rw [fp32Decode_fields _ (((h >>> 10) &&& 31) + 112) ((h &&& 1023) <<< 13)
        hs (by omega) (by
          rw [Nat.shiftLeft_eq]
          calc (h &&& 1023) * 2 ^ 13 ≤ 1023 * 2 ^ 13 :=
                Nat.mul_le_mul_right _ hmn
            _ < 8388608 := by norm_num)]
      rw [if_neg (by omega : ¬(((h >>> 10) &&& 31) + 112 = 0)),
        if_neg (by omega : ¬(((h >>> 10) &&& 31) + 112 = 255))]
      rw [show ((((h >>> 10) &&& 31) + 112 : ℕ) : ℤ) - (127 : ℤ) =
          (((h >>> 10) &&& 31 : ℕ) : ℤ) - (15 : ℤ) by push_cast; ring]
      rw [Nat.shiftLeft_eq]
      have hc2 : (((h &&& 1023) * 2 ^ 13 : ℕ) : ℚ) / 2 ^ 23 =
          ((h &&& 1023 : ℕ) : ℚ) / 1024 := by
        push_cast
        field_simp
        ring
      rw [hc2]

/-! ## Section 3: Q4_K dequantization (`dequantize_q4_K`, quantize.c:13)

`struct block_q4_K` (quantize.h:18) is two FP16 words `d`, `dmin`, 12
scale-table bytes and 128 quant bytes.  `dequantize_q4_K(x, y, k)` loops
over `nb = k / 256` blocks; per block it unpacks 16 scale values
(`scales[2t] = byte_t & 63`, `scales[2t+1] = byte_t >> 6` from the first
8 table bytes) and 16 two-bit min values from table bytes 8..11, then for
each group `j < 16` and byte lane `l < 8` writes
`out[2l] = d·(lo_nibble − 8)·sc + dmin·m` and
`out[2l+1] = d·(hi_nibble − 8)·sc + dmin·m` with `m = mins[j] + 1`.
The three nested loops are embedded as recursions on the loop counter
(all writes into the caller's `y` buffer are function updates). -/

/-- One `block_q4_K`: FP16 bit patterns `d`, `dmin`, the 12 scale-table
bytes (index `0..11`), and the 128 quant bytes (index `0..127`). -/
structure BlockQ4K where
  d : ℕ
  dmin : ℕ
  scales : ℕ → ℕ
  qs : ℕ → ℕ

/-- The unpacked `scales[j]` array of `dequantize_q4_K`
(`scales[j*2] = byte_j & 63`, `scales[j*2+1] = byte_j >> 6`). -/
def q4K_scale (b : BlockQ4K) (j : ℕ) : ℕ :=
  if j % 2 = 0 then b.scales (j / 2) &&& 63 else b.scales (j / 2) >>> 6

/-- The unpacked `mins[j]` array of `dequantize_q4_K` (two-bit fields of
table bytes 8..11). -/
def q4K_min (b : BlockQ4K) (j : ℕ) : ℕ :=
  if j % 4 = 0 then b.scales (8 + j / 4) &&& 3
  else if j % 4 = 1 then (b.scales (8 + j / 4) >>> 2) &&& 3
  else if j % 4 = 2 then (b.scales (8 + j / 4) >>> 4) &&& 3
  else b.scales (8 + j / 4) >>> 6

/-- Inner lane loop (`for (l = 0; l < 8; l++)`) of `dequantize_q4_K`:
iteration `l` reads quant byte `qs[qbase + l]` and writes output offsets
`obase + 2l` (low nibble) and `obase + 2l + 1` (high nibble). -/
def q4KLaneGo (d dmin sc m : ℚ) (qs : ℕ → ℕ) (qbase obase : ℕ) (l : ℕ)
    (dst : ℕ → ℚ) : ℕ → ℚ :=
  if h : l < 8 then
    q4KLaneGo d dmin sc m qs qbase obase (l + 1) (fun n =>
      if n = obase + l * 2 then
        d * (((qs (qbase + l) &&& 15 : ℕ) : ℚ) - 8) * sc + dmin * m
      else if n = obase + l * 2 + 1 then
        d * (((qs (qbase + l) >>> 4 : ℕ) : ℚ) - 8) * sc + dmin * m
      else dst n)
  else dst
termination_by 8 - l
decreasing_by omega

/-- Group loop (`for (j = 0; j < 16; j++)`) of `dequantize_q4_K`:
iteration `j` runs the lane loop with `sc = (float)scales[j]`,
`m = (float)(mins[j] + 1)`, quant bytes from `&qs[j*8]`, output at
`&dst[j*16]`. -/
def q4KGroupGo (dd dmn : ℚ) (b : BlockQ4K) (obase : ℕ) (j : ℕ)
    (dst : ℕ → ℚ) : ℕ → ℚ :=
  if h : j < 16 then
    q4KGroupGo dd dmn b obase (j + 1)
      (q4KLaneGo dd dmn ((q4K_scale b j : ℕ) : ℚ) ((q4K_min b j + 1 : ℕ) : ℚ)
        b.qs (j * 8) (obase + j * 16) 0 dst)
  else dst
termination_by 16 - j
decreasing_by omega

/-- Block loop (`for (i = 0; i < nb; i++)`) of `dequantize_q4_K`:
iteration `i` converts the block's FP16 `d`/`dmin` and writes the 256
lanes at `y + i*QK_K`. -/
def q4KBlockGo (x : ℕ → BlockQ4K) (nb : ℕ) (i : ℕ) (y : ℕ → ℚ) : ℕ → ℚ :=
  if h : i < nb then
    q4KBlockGo x nb (i + 1)
      (q4KGroupGo (ggml_fp16_to_fp32 (x i).d) (ggml_fp16_to_fp32 (x i).dmin)
        (x i) (i * 256) 0 y)
  else y
termination_by nb - i
decreasing_by omega

/-- `dequantize_q4_K(x, y, k)` (quantize.c:13): `nb = k / QK_K` blocks
written into the caller's buffer `y`. -/
def dequantize_q4_K (x : ℕ → BlockQ4K) (k : ℕ) (y : ℕ → ℚ) : ℕ → ℚ :=
  q4KBlockGo x (k / 256) 0 y

/-- Closed form of one dequantized lane: group `j`, lane `l < 16`, with
the low nibble of `qs[8j + l/2]` for even `l` and the high nibble for
odd `l`. -/
def q4KLaneValue (b : BlockQ4K) (j l : ℕ) : ℚ :=
  ggml_fp16_to_fp32 b.d *
      (((if l % 2 = 0 then b.qs (j * 8 + l / 2) &&& 15
         else b.qs (j * 8 + l / 2) >>> 4 : ℕ) : ℚ) - 8) *
      ((q4K_scale b j : ℕ) : ℚ) +
    ggml_fp16_to_fp32 b.dmin * ((q4K_min b j + 1 : ℕ) : ℚ)

lemma q4KLaneGo_frame (d dmin sc m : ℚ) (qs : ℕ → ℕ) (qbase obase : ℕ) :
    ∀ cnt l dst n, 8 - l = cnt → (n < obase + l * 2 ∨ obase + 16 ≤ n) →
      q4KLaneGo d dmin sc m qs qbase obase l dst n = dst n := by
  intro cnt
  induction cnt with
  | zero =>
    intro l dst n hc _
    rw [q4KLaneGo, dif_neg (by omega)]
  | succ cnt ih =>
    intro l dst n hc hn
    by_cases hl : l < 8
    · rw [q4KLaneGo, dif_pos hl,
        ih (l + 1) _ n (by omega) (by omega)]
      rw [if_neg (by omega), if_neg (by omega)]
    · rw [q4KLaneGo, dif_neg hl]

lemma q4KLaneGo_at (d dmin sc m : ℚ) (qs : ℕ → ℕ) (qbase obase : ℕ) :
    ∀ cnt l l' dst, 8 - l = cnt → l ≤ l' → l' < 8 →
      q4KLaneGo d dmin sc m qs qbase obase l dst (obase + l' * 2) =
        d * (((qs (qbase + l') &&& 15 : ℕ) : ℚ) - 8) * sc + dmin * m ∧
      q4KLaneGo d dmin sc m qs qbase obase l dst (obase + l' * 2 + 1) =
        d * (((qs (qbase + l') >>> 4 : ℕ) : ℚ) - 8) * sc + dmin * m := by
  intro cnt
  induction cnt with
  | zero => intro l l' dst hc hle hl'; omega
  | succ cnt ih =>
    intro l l' dst hc hle hl'
    have hl : l < 8 := by omega
    rw [q4KLaneGo, dif_pos hl]
    by_cases heq : l = l'
    · subst heq
      constructor
      · rw [q4KLaneGo_frame d dmin sc m qs qbase obase (8 - (l + 1)) (l + 1) _
          (obase + l * 2) rfl (by omega)]
        rw [if_pos rfl]
      · rw [q4KLaneGo_frame d dmin sc m qs qbase obase (8 - (l + 1)) (l + 1) _
          (obase + l * 2 + 1) rfl (by omega)]
        rw [if_neg (by omega), if_pos rfl]
    · exact ih (l + 1) l' _ (by omega) (by omega) hl'

lemma q4KLaneGo_all (d dmin sc m : ℚ) (qs : ℕ → ℕ) (qbase obase : ℕ)
    (r : ℕ) (hr : r < 16) (dst : ℕ → ℚ) :
    q4KLaneGo d dmin sc m qs qbase obase 0 dst (obase + r) =
      d * (((if r % 2 = 0 then qs (qbase + r / 2) &&& 15
             else qs (qbase + r / 2) >>> 4 : ℕ) : ℚ) - 8) * sc + dmin * m := by
  obtain ⟨hlo, hhi⟩ := q4KLaneGo_at d dmin sc m qs qbase obase (8 - 0) 0 (r / 2)
    dst rfl (by omega) (by omega)
  by_cases hpar : r % 2 = 0
  · rw [if_pos hpar, show obase + r = obase + (r / 2) * 2 by omega, hlo]
  · rw [if_neg hpar, show obase + r = obase + (r / 2) * 2 + 1 by omega, hhi]

lemma q4KGroupGo_frame (dd dmn : ℚ) (b : BlockQ4K) (obase : ℕ) :
    ∀ cnt j dst n, 16 - j = cnt → (n < obase + j * 16 ∨ obase + 256 ≤ n) →
      q4KGroupGo dd dmn b obase j dst n = dst n := by
  intro cnt
  induction cnt with
  | zero =>
    intro j dst n hc _
    rw [q4KGroupGo, dif_neg (by omega)]
  | succ cnt ih =>
    intro j dst n hc hn
    by_cases hj : j < 16
    · rw [q4KGroupGo, dif_pos hj, ih (j + 1) _ n (by omega) (by omega)]
      rw [q4KLaneGo_frame _ _ _ _ _ _ _ (8 - 0) 0 _ n rfl (by omega)]
    · rw [q4KGroupGo, dif_neg hj]

lemma q4KGroupGo_at (dd dmn : ℚ) (b : BlockQ4K) (obase : ℕ) :
    ∀ cnt j j' r dst, 16 - j = cnt → j ≤ j' → j' < 16 → r < 16 →
      q4KGroupGo dd dmn b obase j dst (obase + j' * 16 + r) =
        dd * (((if r % 2 = 0 then b.qs (j' * 8 + r / 2) &&& 15
                else b.qs (j' * 8 + r / 2) >>> 4 : ℕ) : ℚ) - 8) *
            ((q4K_scale b j' : ℕ) : ℚ) +
          dmn * ((q4K_min b j' + 1 : ℕ) : ℚ) := by
  intro cnt
  induction cnt with
  | zero => intro j j' r dst hc hle hj' hr; omega
  | succ cnt ih =>
    intro j j' r dst hc hle hj' hr
    have hj : j < 16 := by omega
    rw [q4KGroupGo, dif_pos hj]
    by_cases heq : j = j'
    · subst heq
      rw [q4KGroupGo_frame dd dmn b obase (16 - (j + 1)) (j + 1) _
        (obase + j * 16 + r) rfl (by omega)]
      exact q4KLaneGo_all dd dmn _ _ b.qs (j * 8) (obase + j * 16) r hr _
    · exact ih (j + 1) j' r _ (by omega) (by omega) hj' hr

lemma q4KBlockGo_frame (x : ℕ → BlockQ4K) (nb : ℕ) :
    ∀ cnt i y n, nb - i = cnt → n < i * 256 →
      q4KBlockGo x nb i y n = y n := by
  intro cnt
  induction cnt with
  | zero =>
    intro i y n hc _
    rw [q4KBlockGo, dif_neg (by omega)]
  | succ cnt ih =>
    intro i y n hc hn
    by_cases hi : i < nb
    · rw [q4KBlockGo, dif_pos hi, ih (i + 1) _ n (by omega) (by omega)]
      rw [q4KGroupGo_frame _ _ _ _ (16 - 0) 0 _ n rfl (by omega)]
    · rw [q4KBlockGo, dif_neg hi]

lemma q4KBlockGo_at (x : ℕ → BlockQ4K) (nb : ℕ) :
    ∀ cnt i i' j r y, nb - i = cnt → i ≤ i' → i' < nb → j < 16 → r < 16 →
      q4KBlockGo x nb i y (i' * 256 + j * 16 + r) =
        q4KLaneValue (x i') j r := by
  intro cnt
  induction cnt with
  | zero => intro i i' j r y hc hle hi' hj hr; omega
  | succ cnt ih =>
    intro i i' j r y hc hle hi' hj hr
    have hi : i < nb := by omega
    rw [q4KBlockGo, dif_pos hi]
    by_cases heq : i = i'
    · subst heq
      rw [q4KBlockGo_frame x nb (nb - (i + 1)) (i + 1) _
        (i * 256 + j * 16 + r) rfl (by omega)]
      have := q4KGroupGo_at (ggml_fp16_to_fp32 (x i).d)
        (ggml_fp16_to_fp32 (x i).dmin) (x i) (i * 256) (16 - 0) 0 j r y
        rfl (by omega) hj hr
      rw [show i * 256 + j * 16 + r = i * 256 + j * 16 + r from rfl]
      exact this.trans (by rw [q4KLaneValue])
    · exact ih (i + 1) i' j r _ (by omega) (by omega) hi' hj hr

/-- Characterization of every lane written by `dequantize_q4_K`
(helper shared by the statements about the codec). -/
lemma dequantize_q4_K_spec (x : ℕ → BlockQ4K) (k : ℕ) (y : ℕ → ℚ)
    (i j l : ℕ) (hi : i < k / 256) (hj : j < 16) (hl : l < 16) :
    dequantize_q4_K x k y (i * 256 + j * 16 + l) = q4KLaneValue (x i) j l :=
  q4KBlockGo_at x (k / 256) (k / 256 - 0) 0 i j l y rfl (by omega) hi hj hl

/-- Scale-table and quant bytes of the C2 witness block: `d = 0x3C00`
(1.0), `dmin = 0`, every table byte `6` (so `scales[0] = 6 & 63 = 6`),
`qs[0] = 0x78` (nibbles 8 and 7), all other quant bytes zero. -/
def q4KWitBlock : BlockQ4K :=
  { d := 15360, dmin := 0, scales := fun _ => 6
    qs := fun n => if n = 0 then 120 else 0 }

/-- The C2 counterexample block: `d = dmin = 0x3C00` (both 1.0), all
scale-table bytes and all quant bytes zero. -/
def q4KCexBlock : BlockQ4K :=
  { d := 15360, dmin := 15360, scales := fun _ => 0, qs := fun _ => 0 }

/-- **C2 (amended).** For every 4-bit K-quant super-block,
`dequantize_q4_K` outputs for group `j < 16` and lane `l < 16` the value
`d·(q − 8)·scales[j] + dmin·(mins[j] + 1)`, where `q` is the low nibble
of `qs[8j + l/2]` for even `l` and the high nibble for odd `l`, the 16
scale values are unpacked as `scales[2t] = byte_t & 63`,
`scales[2t+1] = byte_t >> 6` from the first 8 table bytes, and the 16
min values are the two-bit fields of table bytes 8..11
(`q4KLaneValue` spells out this formula).  In particular a block whose
scale-table and qs bytes are all zero dequantizes to `dmin` (not
`−dmin·min[j]`) in every lane. -/
theorem dequantize_q4_K_lane (x : ℕ → BlockQ4K) (k : ℕ) (y : ℕ → ℚ)
    (i j l : ℕ) (hi : i < k / 256) (hj : j < 16) (hl : l < 16) :
    dequantize_q4_K x k y (i * 256 + j * 16 + l) = q4KLaneValue (x i) j l :=
  dequantize_q4_K_spec x k y i j l hi hj hl

/-- Witness for C2 at the spec's own seed scenario: one block with
`d = 1.0`, `dmin = 0`, `scales[0] = 6`, `qs[0] = 0x78`; the second
dequantized lane is `1·(7 − 8)·6 + 0 = −6`. -/
theorem dequantize_q4_K_lane_witness :
    dequantize_q4_K (fun _ => q4KWitBlock) 256 (fun _ => 0) 1 = -6 := by
  have h := dequantize_q4_K_lane (fun _ => q4KWitBlock) 256 (fun _ => 0) 0 0 1
    (by norm_num) (by norm_num) (by norm_num)
  norm_num at h
  rw [h, q4KLaneValue]
  have hd : ggml_fp16_to_fp32 q4KWitBlock.d = 1 := by
    simp only [q4KWitBlock, ggml_fp16_to_fp32, fp32Decode, Nat.shiftLeft_eq,
      Nat.shiftRight_eq_div_pow, and_mask_1, and_mask_31, and_mask_255,
      and_mask_1023, and_mask_8388607]
    norm_num
  have hdmin : ggml_fp16_to_fp32 q4KWitBlock.dmin = 0 := by
    simp only [q4KWitBlock, ggml_fp16_to_fp32, fp32Decode, Nat.shiftLeft_eq,
      Nat.shiftRight_eq_div_pow, and_mask_1, and_mask_31, and_mask_255,
      and_mask_1023, and_mask_8388607]
    norm_num
  rw [hd, hdmin]
  simp only [q4KWitBlock, q4K_scale, q4K_min, Nat.shiftRight_eq_div_pow,
    and_mask_3, and_mask_15, and_mask_63]
  norm_num

/-- Counterexample to C2 as stated: for the all-zero-table block
`q4KCexBlock` with `dmin = 1.0`, the claim predicts lane 0 equals
`−dmin·min[0] = 0` (with every published K-quant packing an all-zero
table unpacks to `min[0] = 0`), but `dequantize_q4_K` outputs
`dmin·(mins[0] + 1) = 1`. -/
theorem dequantize_q4_K_claim_counterexample :
    dequantize_q4_K (fun _ => q4KCexBlock) 256 (fun _ => 0) 0 = 1 ∧
    -(ggml_fp16_to_fp32 q4KCexBlock.dmin) *
        ((q4K_min q4KCexBlock 0 : ℕ) : ℚ) = 0 ∧
    (1 : ℚ) ≠ 0 := by
  refine ⟨?_, ?_, by norm_num⟩
  · have h := dequantize_q4_K_spec (fun _ => q4KCexBlock) 256 (fun _ => 0) 0 0 0
      (by norm_num) (by norm_num) (by norm_num)
    norm_num at h
    rw [h, q4KLaneValue]
    have hd : ggml_fp16_to_fp32 q4KCexBlock.d = 1 := by
      simp only [q4KCexBlock, ggml_fp16_to_fp32, fp32Decode, Nat.shiftLeft_eq,
        Nat.shiftRight_eq_div_pow, and_mask_1, and_mask_31, and_mask_255,
        and_mask_1023, and_mask_8388607]
      norm_num
    have hdmin : ggml_fp16_to_fp32 q4KCexBlock.dmin = 1 := by
      simp only [q4KCexBlock, ggml_fp16_to_fp32, fp32Decode, Nat.shiftLeft_eq,
        Nat.shiftRight_eq_div_pow, and_mask_1, and_mask_31, and_mask_255,
        and_mask_1023, and_mask_8388607]
      norm_num
    rw [hd, hdmin]
    simp only [q4KCexBlock, q4K_scale, q4K_min, Nat.shiftRight_eq_div_pow,
      and_mask_3, and_mask_15, and_mask_63]
    norm_num
  · have hdmin : ggml_fp16_to_fp32 q4KCexBlock.dmin = 1 := by
      simp only [q4KCexBlock, ggml_fp16_to_fp32, fp32Decode, Nat.shiftLeft_eq,
        Nat.shiftRight_eq_div_pow, and_mask_1, and_mask_31, and_mask_255,
        and_mask_1023, and_mask_8388607]
      norm_num
    rw [hdmin]
    simp only [q4KCexBlock, q4K_min, Nat.shiftRight_eq_div_pow, and_mask_3]
    norm_num

/-! ## Section 4: softmax (`ggml_compute_forward_soft_max_f32`,
ggml_kernel.c:942) and the kernel `expf` approximation
(`kernel_expf`, ggml_kernel.c:23)

Per row: a running-max scan starting from `row[0]`, exponentials of
`row[i0] − max` via `kernel_expf` accumulated into `sum`, and an in-place
division by `sum` guarded by `if (sum > 0)`.  The output tensor is
zero-allocated and every cell of the `ne0 × ne1` region is written
exactly once, so the executed result is the per-cell function below. -/

/-- The Taylor loop of `kernel_expf`:
`for (i = 1; i < 8; i++) { term *= x / i; result += term; }`. -/
def kernelExpfGo (x : ℚ) (i : ℕ) (term result : ℚ) : ℚ :=
  if h : i < 8 then
    kernelExpfGo x (i + 1) (term * (x / (i : ℚ))) (result + term * (x / (i : ℚ)))
  else result
termination_by 8 - i
decreasing_by omega

/-- `kernel_expf(x)` (ggml_kernel.c:23): clamped 7-term Taylor
approximation of `exp`. -/
def kernel_expf (x : ℚ) : ℚ :=
  if x < -10 then 0
  else if x > 10 then 22026
  else kernelExpfGo x 1 1 1

/-- Running-max loop of the softmax kernel
(`for (i0 = 1; ...) if (row[i0] > max_val) max_val = row[i0]`). -/
def softmaxMaxGo (row : ℕ → ℚ) (ne0 : ℕ) (i0 : ℕ) (maxv : ℚ) : ℚ :=
  if h : i0 < ne0 then
    softmaxMaxGo row ne0 (i0 + 1) (if row i0 > maxv then row i0 else maxv)
  else maxv
termination_by ne0 - i0
decreasing_by omega

/-- Row maximum as the kernel computes it (seeded with `row[0]`). -/
def softmaxRowMax (row : ℕ → ℚ) (ne0 : ℕ) : ℚ :=
  softmaxMaxGo row ne0 1 (row 0)

/-- Exponential-sum loop of the softmax kernel
(`dst_row[i0] = expf(row[i0] - max_val); sum += dst_row[i0];`). -/
def softmaxSumGo (row : ℕ → ℚ) (ne0 : ℕ) (maxv : ℚ) (i0 : ℕ) (acc : ℚ) : ℚ :=
  if h : i0 < ne0 then
    softmaxSumGo row ne0 maxv (i0 + 1) (acc + kernel_expf (row i0 - maxv))
  else acc
termination_by ne0 - i0
decreasing_by omega

/-- Final value of output cell `i0` of one softmax row: the stored
exponential, divided by `sum` only when `sum > 0`. -/
def softmaxRowOut (row : ℕ → ℚ) (ne0 : ℕ) (i0 : ℕ) : ℚ :=
  if softmaxSumGo row ne0 (softmaxRowMax row ne0) 0 0 > 0 then
    kernel_expf (row i0 - softmaxRowMax row ne0) /
      softmaxSumGo row ne0 (softmaxRowMax row ne0) 0 0
  else kernel_expf (row i0 - softmaxRowMax row ne0)

/-- Executed `ggml_compute_forward_soft_max_f32` on an `ne0 × ne1` F32
tensor: row `i1` of the output is the softmax of row `i1` of the input;
cells outside the written region keep the zero-initialized allocation. -/
def ggml_compute_forward_soft_max_f32 (src : ℕ → ℚ) (ne0 ne1 : ℕ) :
    ℕ → ℚ :=
  fun n =>
    if n < ne0 * ne1 then
      softmaxRowOut (fun i0 => src (n / ne0 * ne0 + i0)) ne0 (n % ne0)
    else 0

lemma softmaxMaxGo_shift (row : ℕ → ℚ) (ne0 : ℕ) (c : ℚ) :
    ∀ cnt i0 maxv, ne0 - i0 = cnt →
      softmaxMaxGo (fun i => row i + c) ne0 i0 (maxv + c) =
        softmaxMaxGo row ne0 i0 maxv + c := by
  intro cnt
  induction cnt with
  | zero =>
    intro i0 maxv hc
    conv_lhs => rw [softmaxMaxGo]
    conv_rhs => rw [softmaxMaxGo]
    rw [dif_neg (by omega), dif_neg (by omega)]
  | succ cnt ih =>
    intro i0 maxv hc
    by_cases hi : i0 < ne0
    · conv_lhs => rw [softmaxMaxGo]
      conv_rhs => rw [softmaxMaxGo]
      rw [dif_pos hi, dif_pos hi]
      by_cases hgt : row i0 > maxv
      · rw [if_pos (by exact add_lt_add_right hgt c), if_pos hgt,
          ih (i0 + 1) (row i0) (by omega)]
      · rw [if_neg (by intro hcon; exact hgt (lt_of_add_lt_add_right hcon)),
          if_neg hgt, ih (i0 + 1) maxv (by omega)]
    · conv_lhs => rw [softmaxMaxGo]
      conv_rhs => rw [softmaxMaxGo]
      rw [dif_neg hi, dif_neg hi]

lemma softmaxSumGo_shift (row : ℕ → ℚ) (ne0 : ℕ) (maxv c : ℚ) :
    ∀ cnt i0 acc, ne0 - i0 = cnt →
      softmaxSumGo (fun i => row i + c) ne0 (maxv + c) i0 acc =
        softmaxSumGo row ne0 maxv i0 acc := by
  intro cnt
  induction cnt with
  | zero =>
    intro i0 acc hc
    conv_lhs => rw [softmaxSumGo]
    conv_rhs => rw [softmaxSumGo]
    rw [dif_neg (by omega), dif_neg (by omega)]
  | succ cnt ih =>
    intro i0 acc hc
    by_cases hi : i0 < ne0
    · conv_lhs => rw [softmaxSumGo]
      conv_rhs => rw [softmaxSumGo]
      rw [dif_pos hi, dif_pos hi,
        show row i0 + c - (maxv + c) = row i0 - maxv by ring,
        ih (i0 + 1) _ (by omega)]
    · conv_lhs => rw [softmaxSumGo]
      conv_rhs => rw [softmaxSumGo]
      rw [dif_neg hi, dif_neg hi]

/-- **C9.** For every float32 matrix `x` and every constant `c`,
executing `ggml_compute_forward_soft_max_f32` on `x + c·𝟙` yields exactly
the same output matrix as executing it on `x`: the per-row maximum is
subtracted before exponentiation and the shift cancels (exactly, in the
exact-rational embedding of the float kernel). -/
theorem soft_max_shift_invariant (src : ℕ → ℚ) (ne0 ne1 : ℕ) (c : ℚ) :
    ggml_compute_forward_soft_max_f32 (fun n => src n + c) ne0 ne1 =
      ggml_compute_forward_soft_max_f32 src ne0 ne1 := by
  funext n
  unfold ggml_compute_forward_soft_max_f32
  by_cases hn : n < ne0 * ne1
  · rw [if_pos hn, if_pos hn]
    set row := fun i0 => src (n / ne0 * ne0 + i0) with hrow
    have hmax : softmaxRowMax (fun i0 => row i0 + c) ne0 =
        softmaxRowMax row ne0 + c := by
      unfold softmaxRowMax
      exact softmaxMaxGo_shift row ne0 c (ne0 - 1) 1 (row 0) rfl
    have hout : softmaxRowOut (fun i0 => row i0 + c) ne0 (n % ne0) =
        softmaxRowOut row ne0 (n % ne0) := by
      unfold softmaxRowOut
      rw [hmax,
        softmaxSumGo_shift row ne0 (softmaxRowMax row ne0) c (ne0 - 0) 0 0 rfl,
        show row (n % ne0) + c - (softmaxRowMax row ne0 + c) =
          row (n % ne0) - softmaxRowMax row ne0 by ring]
    exact hout
  · rw [if_neg hn, if_neg hn]

/-! ## Section 5: RoPE (`ggml_compute_forward_rope_f32`,
ggml_kernel.c:983)

The executed kernel is a stub: it copies `ne[0] * ne[1]` floats from the
source and ignores `n_past` and `rope_dims` (ggml_kernel.c:989
`/* Simplified RoPE - just copy for now */`); moreover the dispatcher
`ggml_compute_forward` (ggml_kernel.c:765) hardcodes
`n_past = 0, rope_dims = 128` instead of the node's stored parameters.
No rotation of any lane pair is performed. -/

/-- Executed `ggml_compute_forward_rope_f32`: a `memcpy` of the
`ne0 * ne1` source floats into the zero-allocated destination; the
`n_past` and `rope_dims` parameters are ignored by the C body. -/
def ggml_compute_forward_rope_f32 (src : ℕ → ℚ) (ne0 ne1 : ℕ)
    (n_past rope_dims : ℤ) : ℕ → ℚ :=
  fun n => if n < ne0 * ne1 then src n else 0

/-- **C6 (code bug).** The spec requires `rope` to rotate each adjacent
lane pair `(2k, 2k+1)` of the row at position `p = n_past + row_index` by
angle `p·θ^(−2k/n_dims)`, but the executed kernel copies its input
unchanged.  At the failing input — the 2×1 tensor `(1, 0)` with
`n_past = 1`, `n_dims = 2`, whose pair sits at position `p = 1` and
rotation angle `1·θ⁰ = 1` — the code leaves lane 1 at `0`, while the
required rotation of `(1, 0)` by one radian puts `sin 1 ≠ 0` there. -/
theorem rope_stub_copies_instead_of_rotating :
    ggml_compute_forward_rope_f32 (fun n => if n = 0 then 1 else 0) 2 1 1 2 0
        = 1 ∧
    ggml_compute_forward_rope_f32 (fun n => if n = 0 then 1 else 0) 2 1 1 2 1
        = 0 ∧
    Real.sin 1 ≠ 0 := by
  refine ⟨by norm_num [ggml_compute_forward_rope_f32],
    by norm_num [ggml_compute_forward_rope_f32], ?_⟩
  have hpi : (1 : ℝ) < Real.pi := by linarith [Real.pi_gt_three]
  have h : 0 < Real.sin 1 := Real.sin_pos_of_pos_of_lt_pi (by norm_num) hpi
  linarith

/-! ## Section 6: get_rows (the `GGML_OP_GET_ROWS` branch of
`ggml_compute_forward`, ggml_kernel.c:793)

`for (i = 0; i < n; i++) { idx = indices[i];
  if (idx >= 0 && idx < src0->ne[1]) memcpy(dst + i*ne0, src + idx*ne0,
  ne0 * sizeof(float)); }` — out-of-range indices are skipped, leaving
the destination row at the zero the allocation `memset` in
`ggml_new_tensor_impl` (ggml_kernel.c:214) put there.  Indices are C
`int32_t`, embedded as `ℤ`. -/

/-- The gather loop of the `GGML_OP_GET_ROWS` branch: iteration `i`
copies row `indices i` of the `ne0 × ne1E` matrix `src` into output row
`i` when `0 ≤ indices i < ne1E`, and does nothing otherwise. -/
def getRowsGo (src : ℕ → ℚ) (ne0 ne1E : ℕ) (indices : ℕ → ℤ) (n : ℕ)
    (i : ℕ) (dst : ℕ → ℚ) : ℕ → ℚ :=
  if h : i < n then
    getRowsGo src ne0 ne1E indices n (i + 1)
      (if 0 ≤ indices i ∧ indices i < (ne1E : ℤ) then
        fun m =>
          if i * ne0 ≤ m ∧ m < i * ne0 + ne0 then
            src ((indices i).toNat * ne0 + (m - i * ne0))
          else dst m
      else dst)
  else dst
termination_by n - i
decreasing_by omega

/-- Executed `GGML_OP_GET_ROWS`: the gather loop run over the
zero-initialized destination (`n = src1->ne[0]` index entries). -/
def ggml_get_rows_compute (src : ℕ → ℚ) (ne0 ne1E : ℕ) (indices : ℕ → ℤ)
    (n : ℕ) : ℕ → ℚ :=
  getRowsGo src ne0 ne1E indices n 0 (fun _ => 0)

lemma getRowsGo_frame (src : ℕ → ℚ) (ne0 ne1E : ℕ) (indices : ℕ → ℤ)
    (n : ℕ) :
    ∀ cnt i dst m, n - i = cnt → m < i * ne0 →
      getRowsGo src ne0 ne1E indices n i dst m = dst m := by
  intro cnt
  induction cnt with
  | zero =>
    intro i dst m hc _
    rw [getRowsGo, dif_neg (by omega)]
  | succ cnt ih =>
    intro i dst m hc hm
    by_cases hi : i < n
    · rw [getRowsGo, dif_pos hi,
        ih (i + 1) _ m (by omega) (by nlinarith)]
      by_cases hrange : 0 ≤ indices i ∧ indices i < (ne1E : ℤ)
      · rw [if_pos hrange, if_neg (by omega)]
      · rw [if_neg hrange]
    · rw [getRowsGo, dif_neg hi]

lemma getRowsGo_at (src : ℕ → ℚ) (ne0 ne1E : ℕ) (indices : ℕ → ℤ)
    (n : ℕ) :
    ∀ cnt i i' t dst, n - i = cnt → i ≤ i' → i' < n → t < ne0 →
      getRowsGo src ne0 ne1E indices n i dst (i' * ne0 + t) =
        if 0 ≤ indices i' ∧ indices i' < (ne1E : ℤ) then
          src ((indices i').toNat * ne0 + t)
        else dst (i' * ne0 + t) := by
  intro cnt
  induction cnt with
  | zero => intro i i' t dst hc hle hi' ht; omega
  | succ cnt ih =>
    intro i i' t dst hc hle hi' ht
    have hi : i < n := by omega
    rw [getRowsGo, dif_pos hi]
    by_cases heq : i = i'
    · subst heq
      rw [getRowsGo_frame src ne0 ne1E indices n (n - (i + 1)) (i + 1) _
        (i * ne0 + t) rfl (by nlinarith)]
      by_cases hrange : 0 ≤ indices i ∧ indices i < (ne1E : ℤ)
      · rw [if_pos hrange, if_pos (by omega), if_pos hrange,
          show i * ne0 + t - i * ne0 = t by omega]
      · rw [if_neg hrange, if_neg hrange]
    · rw [ih (i + 1) i' t _ (by omega) (by omega) hi' ht]
      by_cases hrange' : 0 ≤ indices i' ∧ indices i' < (ne1E : ℤ)
      · rw [if_pos hrange', if_pos hrange']
      · rw [if_neg hrange', if_neg hrange']
        by_cases hrange : 0 ≤ indices i ∧ indices i < (ne1E : ℤ)
        · rw [if_pos hrange, if_neg (by
            intro hcon
            have : i * ne0 + ne0 ≤ i' * ne0 := by
              have : i + 1 ≤ i' := by omega
              nlinarith
            omega)]
        · rw [if_neg hrange]

/-- **C10.** When the executed `get_rows` kernel meets an index outside
`[0, E.ne[1])`, it skips that row: the corresponding output row keeps
its zero-initialized allocation value, while every in-range index is
gathered (output row `i`, lane `t` equals `E[idx_i · ne0 + t]`);
execution is total over arbitrary `i32` index values. -/
theorem ggml_get_rows_spec (src : ℕ → ℚ) (ne0 ne1E : ℕ) (indices : ℕ → ℤ)
    (n i t : ℕ) (hi : i < n) (ht : t < ne0) :
    (0 ≤ indices i ∧ indices i < (ne1E : ℤ) →
      ggml_get_rows_compute src ne0 ne1E indices n (i * ne0 + t) =
        src ((indices i).toNat * ne0 + t)) ∧
    (¬(0 ≤ indices i ∧ indices i < (ne1E : ℤ)) →
      ggml_get_rows_compute src ne0 ne1E indices n (i * ne0 + t) = 0) := by
  have h := getRowsGo_at src ne0 ne1E indices n (n - 0) 0 i t (fun _ => 0)
    rfl (by omega) hi ht
  constructor
  · intro hrange
    rw [ggml_get_rows_compute, h, if_pos hrange]
  · intro hrange
    rw [ggml_get_rows_compute, h, if_neg hrange]

/-- Witness for C10: a 2-lane embedding matrix with 3 rows, gathered at
indices `[2, -1, 7]` (`n = 3`): row 0 of the output picks embedding row
2, rows 1 and 2 (indices `−1` and `7`, both out of range) stay zero. -/
theorem ggml_get_rows_spec_witness :
    ggml_get_rows_compute (fun m => (m : ℚ)) 2 3
        (fun i => if i = 0 then 2 else if i = 1 then -1 else 7) 3 1 = 5 ∧
    ggml_get_rows_compute (fun m => (m : ℚ)) 2 3
        (fun i => if i = 0 then 2 else if i = 1 then -1 else 7) 3 2 = 0 ∧
    ggml_get_rows_compute (fun m => (m : ℚ)) 2 3
        (fun i => if i = 0 then 2 else if i = 1 then -1 else 7) 3 5 = 0 := by
  refine ⟨?_, ?_, ?_⟩
  · have h := (ggml_get_rows_spec (fun m => (m : ℚ)) 2 3
      (fun i => if i = 0 then 2 else if i = 1 then -1 else 7) 3 0 1
      (by norm_num) (by norm_num)).1 (by norm_num)
    norm_num at h
    rw [show Int.toNat 2 = 2 from rfl] at h
    norm_num at h
    exact h
  · have h := (ggml_get_rows_spec (fun m => (m : ℚ)) 2 3
      (fun i => if i = 0 then 2 else if i = 1 then -1 else 7) 3 1 0
      (by norm_num) (by norm_num)).2 (by norm_num)
    norm_num at h
    exact h
  · have h := (ggml_get_rows_spec (fun m => (m : ℚ)) 2 3
      (fun i => if i = 0 then 2 else if i = 1 then -1 else 7) 3 2 1
      (by norm_num) (by norm_num)).2 (by norm_num)
    norm_num at h
    exact h

/-! ## Section 7: the inference driver (`llama_model.c`)

State machine of `llama_eval` (llama_model.c:679), `llama_state_reset`
(llama_model.c:366) and `llama_generate` (llama_model.c:785), restricted
to the fields the claims are about.  The tensor mathematics of the
forward pass is not needed here, only the driver's control flow and
state updates; allocations are abstracted as succeeding and graph-node
shape checks as passing (as they do for a well-formed model).

Key source facts embedded:
* `llama_eval` performs **no** capacity check of any kind; on success it
  executes `state->n_past = n_past + n_tokens` (llama_model.c:750).
  No `ContextOverflow` error exists anywhere in the module.
* the "KV cache update" of `llama_attention` (llama_model.c:447-453) is
  a stub: it only sets `state->cache.n = n_past + 1` (once per layer)
  and stores nothing into `cache.k->data` / `cache.v->data`; outside
  `llama_state_reset`'s `memset` no instruction in the module writes the
  cache tensors.  The ghost field `kv_written` records the
  `(layer, position)` cells written into the cache during the current
  generation; since no write instruction exists, no operation appends
  to it.
* `llama_generate` resets the state, evaluates the prompt at
  `n_past = 0`, then loops at most `max_tokens` (and at most 256) times,
  each iteration sampling, breaking on negative tokens or EOS (id 2),
  and evaluating one token at the current `n_past`. -/

/-- Driver-visible inference state: model constants
(`model->hparams.n_layer`, `state->cache.capacity`), the counters
`n_past`, `n_tokens`, `cache.n`, the ghost write-log `kv_written`, and
the KV-cache tensor contents. -/
structure LlamaState where
  n_layer : ℕ
  capacity : ℕ
  n_past : ℤ
  n_tokens : ℤ
  cache_n : ℤ
  kv_written : List (ℕ × ℤ)
  cacheK : ℕ → ℚ
  cacheV : ℕ → ℚ

/-- `llama_state_reset` (llama_model.c:366): zero the counters and
`memset` both cache tensors; the ghost write-log of the new generation
is empty. -/
def llama_state_reset (st : LlamaState) : LlamaState :=
  { st with
    n_tokens := 0
    n_past := 0
    cache_n := 0
    kv_written := ([] : List (ℕ × ℤ))
    cacheK := fun _ => 0
    cacheV := fun _ => 0 }

/-- `llama_eval(state, tokens, n_tokens, n_past)` (llama_model.c:679):
`-EINVAL` for a non-positive token count (the NULL-pointer checks are
abstracted); otherwise the layer loop runs — each layer's
`llama_attention` sets `cache.n = n_past + 1` and writes no cache cell —
and the function ends with `state->n_tokens = n_tokens;
state->n_past = n_past + n_tokens`.  No capacity comparison occurs. -/
def llama_eval (st : LlamaState) (n_tokens n_past : ℤ) : Except ℤ LlamaState :=
  if n_tokens ≤ 0 then .error (-22)
  else .ok { st with
    n_tokens := n_tokens
    n_past := n_past + n_tokens
    cache_n := if st.n_layer = 0 then st.cache_n else n_past + 1 }

/-- The token-generation loop of `llama_generate` (llama_model.c:836):
`for (i = 0; i < max_tokens && n_gen < 256; i++)`, sampling via the
abstracted `sample` oracle (the logits argmax), breaking on a negative
token or on EOS (`== 2`), storing the token, and evaluating it at the
current `n_past`.  Returns `n_generated` and the final state (the
mid-loop arena-reuse hack touches only allocator fields not modelled
here). -/
def llama_generate_loop (sample : ℕ → ℤ) (maxTokens : ℕ) (i nGen : ℕ)
    (st : LlamaState) (nGenerated : ℕ) : ℕ × LlamaState :=
  if h : i < maxTokens ∧ nGen < 256 then
    if sample i < 0 then (nGenerated, st)
    else if sample i = 2 then (nGenerated, st)
    else
      match llama_eval st 1 st.n_past with
      | .error _ => (nGenerated, st)
      | .ok st' =>
        llama_generate_loop sample maxTokens (i + 1) (nGen + 1) st'
          (nGenerated + 1)
  else (nGenerated, st)
termination_by maxTokens - i
decreasing_by omega

/-- `llama_generate(state, prompt, output, max_length, max_tokens)`
(llama_model.c:785): argument check (`max_length <= 0` → `-EINVAL`),
state reset, tokenization (abstracted to its resulting token count
`nPrompt`; `n_tokens <= 0` → `-1`), one-shot prompt eval at
`n_past = 0` (failure → `-1`), then the generation loop. -/
def llama_generate (st : LlamaState) (nPrompt : ℤ) (sample : ℕ → ℤ)
    (maxTokens : ℕ) (maxLength : ℤ) : Except ℤ (ℕ × LlamaState) :=
  if maxLength ≤ 0 then .error (-22)
  else
    if nPrompt ≤ 0 then .error (-1)
    else
      match llama_eval (llama_state_reset st) nPrompt 0 with
      | .error _ => .error (-1)
      | .ok st2 => .ok (llama_generate_loop sample maxTokens 0 0 st2 0)

/-- A sequence of evaluation steps as the driver issues them: each step
evaluates its batch at the state's current `n_past`. -/
def llama_evalChain (st : LlamaState) : List ℤ → Except ℤ LlamaState
  | [] => .ok st
  | T :: rest =>
    match llama_eval st T st.n_past with
    | .error e => .error e
    | .ok st' => llama_evalChain st' rest

/-- What a chain of successful positive-batch evaluations does to the
state: `n_past` grows by the batch total, and the write-log and cache
tensors are untouched (helper shared by the driver claims). -/
lemma llama_evalChain_spec (Ts : List ℤ) :
    ∀ st st', (∀ T ∈ Ts, 0 < T) → llama_evalChain st Ts = .ok st' →
      st'.n_past = st.n_past + Ts.sum ∧
      st'.kv_written = st.kv_written ∧
      st'.cacheK = st.cacheK ∧ st'.cacheV = st.cacheV ∧
      st'.capacity = st.capacity ∧ st'.n_layer = st.n_layer := by
  induction Ts with
  | nil =>
    intro st st' _ hch
    obtain rfl : st = st' := by
      simpa [llama_evalChain] using hch
    simp
  | cons T rest ih =>
    intro st st' hTs hch
    have hT : 0 < T := hTs T (by simp)
    rw [llama_evalChain, llama_eval, if_neg (by omega)] at hch
    obtain ⟨h1, h2, h3, h4, h5, h6⟩ :=
      ih _ st' (fun T' hT' => hTs T' (by simp [hT'])) hch
    refine ⟨?_, h2, h3, h4, h5, h6⟩
    rw [h1]
    simp [List.sum_cons]
    ring

/-- What the generation loop does under a sampler that never returns a
negative token and never returns EOS: it runs `min (maxTokens − i)
(256 − nGen)` iterations, each advancing `n_past` by one, and never
touches the write-log or the cache tensors (helper shared by the driver
claims). -/
lemma llama_generate_loop_spec (sample : ℕ → ℤ)
    (hsample : ∀ i, 0 ≤ sample i ∧ sample i ≠ 2) (maxTokens : ℕ) :
    ∀ cnt i nGen st nGenerated, maxTokens - i = cnt →
      (llama_generate_loop sample maxTokens i nGen st nGenerated).1 =
          nGenerated + min (maxTokens - i) (256 - nGen) ∧
      (llama_generate_loop sample maxTokens i nGen st nGenerated).2.n_past =
          st.n_past + (min (maxTokens - i) (256 - nGen) : ℕ) ∧
      (llama_generate_loop sample maxTokens i nGen st nGenerated).2.kv_written
          = st.kv_written ∧
      (llama_generate_loop sample maxTokens i nGen st nGenerated).2.cacheK =
          st.cacheK ∧
      (llama_generate_loop sample maxTokens i nGen st nGenerated).2.cacheV =
          st.cacheV ∧
      (llama_generate_loop sample maxTokens i nGen st nGenerated).2.capacity =
          st.capacity := by
  intro cnt
  induction cnt with
  | zero =>
    intro i nGen st nGenerated hc
    rw [llama_generate_loop, dif_neg (by omega)]
    have : min (maxTokens - i) (256 - nGen) = 0 := by omega
    rw [this]
    norm_num
  | succ cnt ih =>
    intro i nGen st nGenerated hc
    by_cases hguard : i < maxTokens ∧ nGen < 256
    · rw [llama_generate_loop, dif_pos hguard,
        if_neg (by have := (hsample i).1; omega),
        if_neg (by exact (hsample i).2)]
      rw [show llama_eval st 1 st.n_past =
          .ok { st with
                n_tokens := 1
                n_past := st.n_past + 1
                cache_n := if st.n_layer = 0 then st.cache_n
                           else st.n_past + 1 } by
        rw [llama_eval, if_neg (by omega)]]
      obtain ⟨h1, h2, h3, h4, h5, h6⟩ := ih (i + 1) (nGen + 1) _
        (nGenerated + 1) (by omega)
      have hmin : min (maxTokens - (i + 1)) (256 - (nGen + 1)) + 1 =
          min (maxTokens - i) (256 - nGen) := by omega
      refine ⟨?_, ?_, by simpa using h3, by simpa using h4,
        by simpa using h5, by simpa using h6⟩
      · rw [h1]
        omega
      · rw [h2]
        simp only []
        rw [← hmin]
        push_cast
        ring
    · rw [llama_generate_loop, dif_neg hguard]
      have : min (maxTokens - i) (256 - nGen) = 0 := by omega
      rw [this]
      norm_num

/-- A state as `llama_state_create` builds it for a 1-layer model:
capacity 2048 (the `test_ctx` constant of llama_model.c:320), zeroed
counters, zeroed caches. -/
def driverState : LlamaState :=
  { n_layer := 1
    capacity := 2048
    n_past := 0
    n_tokens := 0
    cache_n := 0
    kv_written := ([] : List (ℕ × ℤ))
    cacheK := fun _ => 0
    cacheV := fun _ => 0 }

/-- Counterexample to C4 as stated: with the cache full
(`n_past = C_max = 2048`), evaluating one more token must — per the
claim — fail with ContextOverflow; instead `llama_eval` succeeds and
silently sets `n_past = 2049 > C_max` (no ContextOverflow error exists
anywhere in the module). -/
theorem llama_eval_overflow_counterexample :
    llama_eval driverState 1 2048 =
      .ok { n_layer := 1
            capacity := 2048
            n_past := 2049
            n_tokens := 1
            cache_n := 2049
            kv_written := ([] : List (ℕ × ℤ))
            cacheK := fun _ => 0
            cacheV := fun _ => 0 } ∧
    (driverState.capacity : ℤ) < 2048 + 1 := by
  constructor
  · rfl
  · norm_num [driverState]

/-- **C4 (amended).** Neither `llama_eval` nor `llama_generate` performs
any KV-cache capacity check: for every state and every batch `T ≥ 1` at
every `n_past` — including `n_past + T > C_max` — `llama_eval` succeeds
and silently sets `n_past := n_past + T` (writing no cache cell), and a
`llama_generate` call whose `max_tokens` pushes `n_past` past the
context length does not return ContextOverflow but completes, returning
`min max_tokens 256` generated tokens with the final
`n_past = n_prompt + min max_tokens 256`. -/
theorem llama_no_capacity_check (st : LlamaState) (T n_past : ℤ)
    (hT : 0 < T) (nPrompt : ℤ) (hNP : 0 < nPrompt) (sample : ℕ → ℤ)
    (hsample : ∀ i, 0 ≤ sample i ∧ sample i ≠ 2) (maxTokens : ℕ)
    (maxLength : ℤ) (hML : 0 < maxLength) :
    llama_eval st T n_past =
      .ok { st with
            n_tokens := T
            n_past := n_past + T
            cache_n := if st.n_layer = 0 then st.cache_n
                       else n_past + 1 } ∧
    ∃ fin, llama_generate st nPrompt sample maxTokens maxLength =
        .ok (min maxTokens 256, fin) ∧
      fin.n_past = nPrompt + (min maxTokens 256 : ℕ) ∧
      fin.kv_written = [] := by
  constructor
  · rw [llama_eval, if_neg (by omega)]
  · rw [llama_generate, if_neg (by omega), if_neg (by omega)]
    set st2 : LlamaState :=
      { llama_state_reset st with
        n_tokens := nPrompt
        n_past := 0 + nPrompt
        cache_n := if (llama_state_reset st).n_layer = 0 then
            (llama_state_reset st).cache_n
          else 0 + 1 } with hst2
    rw [show llama_eval (llama_state_reset st) nPrompt 0 = .ok st2 by
      rw [llama_eval, if_neg (by omega)]]
    obtain ⟨h1, h2, h3, _, _, _⟩ := llama_generate_loop_spec sample hsample
      maxTokens (maxTokens - 0) 0 0 st2 0 rfl
    refine ⟨(llama_generate_loop sample maxTokens 0 0 st2 0).2, ?_, ?_, ?_⟩
    · show Except.ok (llama_generate_loop sample maxTokens 0 0 st2 0) =
        Except.ok ((min maxTokens 256 : ℕ),
          (llama_generate_loop sample maxTokens 0 0 st2 0).2)
      congr 1
      rw [Prod.ext_iff]
      refine ⟨?_, rfl⟩
      rw [h1]
      simp
    · rw [h2, hst2]
      simp [llama_state_reset]
    · rw [h3, hst2]
      simp [llama_state_reset]

/-- Witness for C4 (amended): a 1-layer state with a full 2048-entry
cache, a 2048-token prompt and `max_tokens = 3`: generation succeeds
with 3 tokens and final `n_past = 2051`, past the capacity. -/
theorem llama_no_capacity_check_witness :
    (llama_generate driverState 2048 (fun _ => 5) 3 100).map
        (fun p => (p.1, p.2.n_past)) = .ok (3, 2051) := by
  obtain ⟨heval, fin, hgen, hnp, hkv⟩ :=
    llama_no_capacity_check driverState 1 2048 (by norm_num) 2048
      (by norm_num) (fun _ => 5) (fun i => by norm_num) 3 100 (by norm_num)
  rw [hgen]
  simp only [Except.map]
  rw [hnp]
  norm_num

/-- Counterexample to C5 as stated: one successful single-token step
from a freshly reset state gives `n_past = 1`, yet the number of
distinct `(layer, position)` cells written into the KV cache is `0` —
the cache-update code of `llama_attention` (llama_model.c:447-453) only
sets the counter `cache.n` and stores nothing. -/
theorem kv_cache_claim_counterexample :
    llama_eval (llama_state_reset driverState) 1 0 =
      .ok { n_layer := 1
            capacity := 2048
            n_past := 1
            n_tokens := 1
            cache_n := 1
            kv_written := ([] : List (ℕ × ℤ))
            cacheK := fun _ => 0
            cacheV := fun _ => 0 } ∧
    (([] : List (ℕ × ℤ)).length : ℤ) ≠ 1 := by
  constructor
  · rfl
  · norm_num

/-- **C5 (amended).** Over a single generation — any chain of successful
positive-batch evaluation steps from a reset state — `state.n_past` is
non-decreasing (it grows by each batch size), but it does **not** equal
the number of distinct `(layer, position)` cells written into the KV
cache: that number stays `0`, because no instruction of the module
stores into the cache tensors, which keep the zeroes `llama_state_reset`
put there rather than post-rotary key/value projections. -/
theorem kv_cache_never_written (st0 : LlamaState) (Ts : List ℤ)
    (hTs : ∀ T ∈ Ts, 0 < T) (st' : LlamaState)
    (hch : llama_evalChain (llama_state_reset st0) Ts = .ok st') :
    st'.n_past = Ts.sum ∧ (llama_state_reset st0).n_past ≤ st'.n_past ∧
    st'.kv_written = [] ∧
    st'.cacheK = (fun _ => 0) ∧ st'.cacheV = (fun _ => 0) := by
  obtain ⟨h1, h2, h3, h4, _, _⟩ := llama_evalChain_spec Ts _ st' hTs hch
  have hTpos : 0 ≤ Ts.sum :=
    List.sum_nonneg (fun T hT => le_of_lt (hTs T hT))
  refine ⟨?_, ?_, ?_, ?_, ?_⟩
  · rw [h1]; simp [llama_state_reset]
  · rw [h1]; simp [llama_state_reset]; omega
  · rw [h2]; simp [llama_state_reset]
  · rw [h3]; simp [llama_state_reset]
  · rw [h4]; simp [llama_state_reset]

/-- Witness for C5 (amended): the chain of a 1-token and a 2-token step
from a reset state ends at `n_past = 3` with zero cache cells written
and both cache tensors still zero. -/
theorem kv_cache_never_written_witness :
    (llama_evalChain (llama_state_reset driverState) [1, 2]).map
        (fun s => (s.n_past, s.kv_written.length)) = .ok (3, 0) := by
  have hch : llama_evalChain (llama_state_reset driverState) [1, 2] =
      .ok { n_layer := 1
            capacity := 2048
            n_past := 3
            n_tokens := 2
            cache_n := 2
            kv_written := ([] : List (ℕ × ℤ))
            cacheK := fun _ => 0
            cacheV := fun _ => 0 } := rfl
  obtain ⟨h1, _, h3, _, _⟩ := kv_cache_never_written driverState [1, 2]
    (by intro T hT; fin_cases hT <;> norm_num) _ hch
  rw [hch]
  simp only [Except.map]
  norm_num

/-! ## Section 8: the GGUF file parser (`gguf_parser.c`)

`gguf_parse_header` (gguf_parser.c:84), `gguf_parse_metadata`
(gguf_parser.c:146) and `gguf_parse_tensor_info` (gguf_parser.c:299)
over a little-endian byte buffer `buf : ℕ → ℕ` of length `size`.
The embedding keeps the exact pointer arithmetic and every explicit
bounds check of the C code (`ptr >= end` after each key and after each
entry; the two checks inside string-array skipping); the metadata
values stored into `struct gguf_model` are not modelled, since the
claims are about parse success and the read-pointer advance, and
`kzalloc` failure inside `read_gguf_string` is abstracted away. -/

/-- Little-endian `u32` read (`memcpy(&x, ptr, sizeof(u32))`). -/
def readU32 (buf : ℕ → ℕ) (p : ℕ) : ℕ :=
  buf p + buf (p + 1) * 256 + buf (p + 2) * 65536 + buf (p + 3) * 16777216

/-- Little-endian `u64` read (`memcpy(&x, ptr, sizeof(u64))`). -/
def readU64 (buf : ℕ → ℕ) (p : ℕ) : ℕ :=
  buf p + buf (p + 1) * 256 + buf (p + 2) * 65536 +
    buf (p + 3) * 16777216 + buf (p + 4) * 4294967296 +
    buf (p + 5) * 1099511627776 + buf (p + 6) * 281474976710656 +
    buf (p + 7) * 72057594037927936

/-- The `length` bytes a `read_gguf_string` call copies out. -/
def readBytes (buf : ℕ → ℕ) (p n : ℕ) : List ℕ :=
  (List.range n).map (fun t => buf (p + t))

/-- ASCII bytes of `"general.name"`. -/
def generalNameKey : List ℕ :=
  [103, 101, 110, 101, 114, 97, 108, 46, 110, 97, 109, 101]

/-- ASCII bytes of `"general.architecture"`. -/
def generalArchKey : List ℕ :=
  [103, 101, 110, 101, 114, 97, 108, 46, 97, 114, 99, 104, 105, 116,
   101, 99, 116, 117, 114, 101]

/-- ASCII bytes of `"llama.context_length"`. -/
def ctxLenKey : List ℕ :=
  [108, 108, 97, 109, 97, 46, 99, 111, 110, 116, 101, 120, 116, 95,
   108, 101, 110, 103, 116, 104]

/-- ASCII bytes of `"llama.embedding_length"`. -/
def embdLenKey : List ℕ :=
  [108, 108, 97, 109, 97, 46, 101, 109, 98, 101, 100, 100, 105, 110,
   103, 95, 108, 101, 110, 103, 116, 104]

/-- ASCII bytes of `"llama.block_count"`. -/
def blockCountKey : List ℕ :=
  [108, 108, 97, 109, 97, 46, 98, 108, 111, 99, 107, 95, 99, 111, 117,
   110, 116]

/-- ASCII bytes of `"llama.attention.head_count"`. -/
def headCountKey : List ℕ :=
  [108, 108, 97, 109, 97, 46, 97, 116, 116, 101, 110, 116, 105, 111,
   110, 46, 104, 101, 97, 100, 95, 99, 111, 117, 110, 116]

/-- ASCII bytes of `"llama.attention.head_count_kv"`. -/
def headCountKvKey : List ℕ :=
  [108, 108, 97, 109, 97, 46, 97, 116, 116, 101, 110, 116, 105, 111,
   110, 46, 104, 101, 97, 100, 95, 99, 111, 117, 110, 116, 95, 107,
   118]

/-- ASCII bytes of `"llama.feed_forward_length"`. -/
def ffLenKey : List ℕ :=
  [108, 108, 97, 109, 97, 46, 102, 101, 101, 100, 95, 102, 111, 114,
   119, 97, 114, 100, 95, 108, 101, 110, 103, 116, 104]

/-- ASCII bytes of `"llama.rope.dimension_count"`. -/
def ropeDimKey : List ℕ :=
  [108, 108, 97, 109, 97, 46, 114, 111, 112, 101, 46, 100, 105, 109,
   101, 110, 115, 105, 111, 110, 95, 99, 111, 117, 110, 116]

/-- Parsed `struct gguf_header`. -/
structure GgufHeader where
  magic : ℕ
  version : ℕ
  tensor_count : ℕ
  metadata_kv_count : ℕ
deriving DecidableEq

/-- `gguf_parse_header(data, size, header)` (gguf_parser.c:84): size,
magic (`0x46554747`) and version (2 or 3) checks, `-EINVAL` on
failure. -/
def gguf_parse_header (buf : ℕ → ℕ) (size : ℕ) : Except ℤ GgufHeader :=
  if size < 24 then .error (-22)
  else if readU32 buf 0 ≠ 1179993927 then .error (-22)
  else if readU32 buf 4 ≠ 2 ∧ readU32 buf 4 ≠ 3 then .error (-22)
  else .ok ⟨readU32 buf 0, readU32 buf 4, readU64 buf 8, readU64 buf 16⟩

/-- The array-skipping inner loop of `gguf_parse_metadata`
(gguf_parser.c:243-276), by remaining element count: 4 bytes for
`u32/i32/f32` elements, 8 for `f64`, length-prefixed skip with two
bounds checks for `string`, `-EINVAL` for every other element type. -/
def gguf_skip_array_elems (buf : ℕ → ℕ) (size : ℕ) (arrType : ℕ) :
    ℕ → ℕ → Except ℤ ℕ
  | 0, p => .ok p
  | j + 1, p =>
    if arrType = 4 ∨ arrType = 5 ∨ arrType = 6 then
      gguf_skip_array_elems buf size arrType j (p + 4)
    else if arrType = 12 then
      gguf_skip_array_elems buf size arrType j (p + 8)
    else if arrType = 8 then
      if size < p + 8 then .error (-22)
      else if size < p + 8 + readU64 buf p then .error (-22)
      else gguf_skip_array_elems buf size arrType j (p + 8 + readU64 buf p)
    else .error (-22)

/-- The value-skipping `switch (value_type)` of `gguf_parse_metadata`
(gguf_parser.c:206-282) for a key the parser does not interpret;
an unknown `value_type` only warns and does not advance. -/
def gguf_skip_unknown_value (buf : ℕ → ℕ) (size : ℕ) (vtype vpos : ℕ) :
    Except ℤ ℕ :=
  if vtype = 0 ∨ vtype = 1 ∨ vtype = 7 then .ok (vpos + 1)
  else if vtype = 2 ∨ vtype = 3 then .ok (vpos + 2)
  else if vtype = 4 ∨ vtype = 5 ∨ vtype = 6 then .ok (vpos + 4)
  else if vtype = 10 ∨ vtype = 11 ∨ vtype = 12 then .ok (vpos + 8)
  else if vtype = 8 then .ok (vpos + 8 + readU64 buf vpos)
  else if vtype = 9 then
    gguf_skip_array_elems buf size (readU32 buf vpos)
      (readU64 buf (vpos + 4)) (vpos + 12)
  else .ok vpos

/-- One key/value step of `gguf_parse_metadata`: the `else if` chain of
interpreted keys (two strings, seven `u32`s), then the skip switch. -/
def gguf_parse_metadata_entry (buf : ℕ → ℕ) (size : ℕ) (key : List ℕ)
    (vtype vpos : ℕ) : Except ℤ ℕ :=
  if key = generalNameKey ∧ vtype = 8 then .ok (vpos + 8 + readU64 buf vpos)
  else if key = generalArchKey ∧ vtype = 8 then
    .ok (vpos + 8 + readU64 buf vpos)
  else if key = ctxLenKey ∧ vtype = 4 then .ok (vpos + 4)
  else if key = embdLenKey ∧ vtype = 4 then .ok (vpos + 4)
  else if key = blockCountKey ∧ vtype = 4 then .ok (vpos + 4)
  else if key = headCountKey ∧ vtype = 4 then .ok (vpos + 4)
  else if key = headCountKvKey ∧ vtype = 4 then .ok (vpos + 4)
  else if key = ffLenKey ∧ vtype = 4 then .ok (vpos + 4)
  else if key = ropeDimKey ∧ vtype = 4 then .ok (vpos + 4)
  else gguf_skip_unknown_value buf size vtype vpos

/-- The metadata loop of `gguf_parse_metadata` (gguf_parser.c:159-291),
by remaining entry count: read the key (error when `ptr >= end` after
it), read `value_type`, handle the value, and fail with `-EINVAL` when
`ptr >= end` at the end of the iteration. -/
def gguf_parse_metadata_loop (buf : ℕ → ℕ) (size : ℕ) :
    ℕ → ℕ → Except ℤ ℕ
  | 0, pos => .ok pos
  | count + 1, pos =>
    if size ≤ pos + 8 + readU64 buf pos then .error (-22)
    else
      match gguf_parse_metadata_entry buf size
          (readBytes buf (pos + 8) (readU64 buf pos))
          (readU32 buf (pos + 8 + readU64 buf pos))
          (pos + 8 + readU64 buf pos + 4) with
      | .error e => .error e
      | .ok pos' =>
        if size ≤ pos' then .error (-22)
        else gguf_parse_metadata_loop buf size count pos'

/-- `gguf_parse_metadata(data, size, model)` (gguf_parser.c:146): skip
the 24-byte header and run the entry loop over
`model->header.metadata_kv_count` entries; on success the return value
is the final offset `ptr - data`. -/
def gguf_parse_metadata (buf : ℕ → ℕ) (size : ℕ) (mdCount : ℕ) :
    Except ℤ ℕ :=
  gguf_parse_metadata_loop buf size mdCount 24

/-- The tensor-directory loop of `gguf_parse_tensor_info`
(gguf_parser.c:327-360): per record a name string (error when
`ptr >= end` after it), `n_dims : u32`, `n_dims` `u64` extents, a `u32`
dtype and a `u64` offset. -/
def gguf_tensor_info_loop (buf : ℕ → ℕ) (size : ℕ) :
    ℕ → ℕ → Except ℤ ℕ
  | 0, pos => .ok pos
  | count + 1, pos =>
    if size ≤ pos + 8 + readU64 buf pos then .error (-22)
    else
      gguf_tensor_info_loop buf size count
        (pos + 8 + readU64 buf pos + 4 +
          8 * readU32 buf (pos + 8 + readU64 buf pos) + 4 + 8)

/-- `gguf_parse_tensor_info(data, size, model)` (gguf_parser.c:299):
re-parse the metadata to find the directory start, walk the
`tensor_count` records, and compute
`model->data_offset = (tensor_info_end + 31) & ~31ULL`; the computed
offset is returned on success. -/
def gguf_parse_tensor_info (buf : ℕ → ℕ) (size : ℕ)
    (tensorCount mdCount : ℕ) : Except ℤ ℕ :=
  match gguf_parse_metadata buf size mdCount with
  | .error e => .error e
  | .ok mdEnd =>
    match gguf_tensor_info_loop buf size tensorCount mdEnd with
    | .error e => .error e
    | .ok infoEnd => .ok ((infoEnd + 31) &&& 18446744073709551584)

/-- The 24-byte minimal GGUF file of the spec's seed scenario 2: magic
`0x46554747` (bytes `47 47 55 46`), version 3, zero tensors, zero
metadata entries. -/
def minimalGguf : ℕ → ℕ := fun n =>
  if n = 0 then 71 else if n = 1 then 71 else if n = 2 then 85
  else if n = 3 then 70 else if n = 4 then 3 else 0

/-- **C7 (amended).** On the minimal 24-byte model file (magic
`0x46554747`, version 3, `tensor_count = 0`, `metadata_count = 0`),
header parsing, metadata parsing and tensor-directory parsing all
succeed, and the computed tensor-data-region offset is
`align_up(24, 32) = (24 + 31) & ~31 = 32` — not 24. -/
theorem gguf_minimal_file_parses :
    gguf_parse_header minimalGguf 24 = .ok ⟨1179993927, 3, 0, 0⟩ ∧
    gguf_parse_metadata minimalGguf 24 0 = .ok 24 ∧
    gguf_parse_tensor_info minimalGguf 24 0 0 = .ok 32 := by
  refine ⟨rfl, rfl, rfl⟩

/-- Counterexample to C7 as stated: the claim asserts the computed
tensor-data-region offset of the minimal file is 24, but
`gguf_parse_tensor_info` computes `(24 + 31) & ~31ULL = 32`. -/
theorem gguf_minimal_offset_counterexample :
    gguf_parse_tensor_info minimalGguf 24 0 0 = .ok 32 ∧ (32 : ℕ) ≠ 24 := by
  refine ⟨rfl, by norm_num⟩

/-! ### Well-formed metadata values and their byte serialization (C8)

The GGUF format (spec §6): value types `0..12`; an `array` value is
`elem_type : u32`, `length : u64`, then `length` elements of the element
type, recursively.  `GgufValue` describes one value, `serializeValue`
its on-disk bytes; `wfValue` is what the *format* allows, while
`skippableValue` is the subset the *code* can skip (arrays restricted to
element types `u32/i32/f32/f64/string`, no nested arrays). -/

/-- A GGUF metadata value: a scalar of type `t` with its raw little-endian
bytes, a string, or a homogeneous array of element type `t`. -/
inductive GgufValue where
  | scalar (t : ℕ) (bytes : List ℕ)
  | str (s : List ℕ)
  | arr (t : ℕ) (elems : List GgufValue)

/-- The `value_type` code of a value (`string = 8`, `array = 9`). -/
def ggufTypeOf : GgufValue → ℕ
  | .scalar t _ => t
  | .str _ => 8
  | .arr _ _ => 9

/-- Byte width of a scalar value type
(`u8/i8/bool = 1`, `u16/i16 = 2`, `u32/i32/f32 = 4`, `u64/i64/f64 = 8`). -/
def scalarWidth (t : ℕ) : ℕ :=
  if t = 0 ∨ t = 1 ∨ t = 7 then 1
  else if t = 2 ∨ t = 3 then 2
  else if t = 4 ∨ t = 5 ∨ t = 6 then 4
  else 8

/-- `t` is one of the eleven scalar value-type codes. -/
def ggufScalarOK (t : ℕ) : Prop :=
  t = 0 ∨ t = 1 ∨ t = 2 ∨ t = 3 ∨ t = 4 ∨ t = 5 ∨ t = 6 ∨ t = 7 ∨
    t = 10 ∨ t = 11 ∨ t = 12

/-- Little-endian bytes of a `u32`. -/
def u32LE (v : ℕ) : List ℕ :=
  [v % 256, v / 256 % 256, v / 65536 % 256, v / 16777216 % 256]

/-- Little-endian bytes of a `u64`. -/
def u64LE (v : ℕ) : List ℕ :=
  [v % 256, v / 256 % 256, v / 65536 % 256, v / 16777216 % 256,
   v / 4294967296 % 256, v / 1099511627776 % 256,
   v / 281474976710656 % 256, v / 72057594037927936 % 256]

mutual

/-- On-disk serialization of one metadata value (spec §6). -/
def serializeValue : GgufValue → List ℕ
  | .scalar _ bytes => bytes
  | .str s => u64LE s.length ++ s
  | .arr t elems => u32LE t ++ u64LE elems.length ++ serializeValueList elems

/-- Concatenated serialization of array elements. -/
def serializeValueList : List GgufValue → List ℕ
  | [] => []
  | v :: rest => serializeValue v ++ serializeValueList rest

end

/-- A value the skip switch of `gguf_parse_metadata` handles: any
scalar, any string, and arrays whose element type is
`u32/i32/f32/f64/string` (the inner switch returns `-EINVAL` for every
other element type, including nested arrays). -/
def skippableValue : GgufValue → Prop
  | .scalar t bytes => ggufScalarOK t ∧ bytes.length = scalarWidth t
  | .str s => s.length < 18446744073709551616
  | .arr t elems =>
    (t = 4 ∨ t = 5 ∨ t = 6 ∨ t = 12 ∨ t = 8) ∧
      elems.length < 18446744073709551616 ∧
      ∀ e ∈ elems,
        ggufTypeOf e = t ∧
          (match e with
           | .scalar t' bytes => ggufScalarOK t' ∧ bytes.length = scalarWidth t'
           | .str s => s.length < 18446744073709551616
           | .arr _ _ => False)

mutual

/-- A value well-formed per the GGUF format (spec §6): scalars of the
eleven scalar types with the right width, strings, and arrays of any
element type — recursively, including arrays of arrays. -/
def wfValue : GgufValue → Prop
  | .scalar t bytes => ggufScalarOK t ∧ bytes.length = scalarWidth t
  | .str s => s.length < 18446744073709551616
  | .arr t elems =>
    elems.length < 18446744073709551616 ∧ wfElems t elems

/-- All elements have value-type code `t` and are well-formed. -/
def wfElems (t : ℕ) : List GgufValue → Prop
  | [] => True
  | e :: rest => ggufTypeOf e = t ∧ wfValue e ∧ wfElems t rest

end

/-- One metadata key/value record. -/
structure GgufEntry where
  key : List ℕ
  val : GgufValue

/-- On-disk serialization of one metadata record:
`key : gguf_string`, `value_type : u32`, value bytes. -/
def serializeEntry (e : GgufEntry) : List ℕ :=
  u64LE e.key.length ++ e.key ++ u32LE (ggufTypeOf e.val) ++
    serializeValue e.val

/-- On-disk serialization of a metadata directory. -/
def serializeEntries : List GgufEntry → List ℕ
  | [] => []
  | e :: rest => serializeEntry e ++ serializeEntries rest

/-- An entry the code can process: a representable key length and a
skippable value. -/
def ggufEntryOK (e : GgufEntry) : Prop :=
  e.key.length < 18446744073709551616 ∧ skippableValue e.val

/-- `buf` holds exactly the bytes `bs` starting at offset `p`. -/
def bytesAt (buf : ℕ → ℕ) (p : ℕ) (bs : List ℕ) : Prop :=
  ∀ k, k < bs.length → buf (p + k) = bs.getD k 0

lemma bytesAt_append {buf : ℕ → ℕ} {p : ℕ} {a b : List ℕ} :
    bytesAt buf p (a ++ b) ↔
      bytesAt buf p a ∧ bytesAt buf (p + a.length) b := by
  unfold bytesAt
  constructor
  · intro h
    constructor
    · intro k hk
      have := h k (by simp; omega)
      rwa [List.getD_append _ _ _ _ hk] at this
    · intro k hk
      have := h (a.length + k) (by simp; omega)
      rw [List.getD_append_right _ _ _ _ (by omega)] at this
      simpa [Nat.add_assoc] using this
  · intro ⟨h1, h2⟩ k hk
    simp only [List.length_append] at hk
    by_cases hka : k < a.length
    · rw [List.getD_append _ _ _ _ hka]
      exact h1 k hka
    · rw [List.getD_append_right _ _ _ _ (by omega)]
      have := h2 (k - a.length) (by omega)
      rwa [show p + a.length + (k - a.length) = p + k by omega] at this

lemma readU64_bytesAt {buf : ℕ → ℕ} {p v : ℕ} (h : bytesAt buf p (u64LE v))
    (hv : v < 18446744073709551616) : readU64 buf p = v := by
  have h0 : buf (p + 0) = v % 256 := h 0 (by norm_num [u64LE])
  have h1 : buf (p + 1) = v / 256 % 256 := h 1 (by norm_num [u64LE])
  have h2 : buf (p + 2) = v / 65536 % 256 := h 2 (by norm_num [u64LE])
  have h3 : buf (p + 3) = v / 16777216 % 256 := h 3 (by norm_num [u64LE])
  have h4 : buf (p + 4) = v / 4294967296 % 256 := h 4 (by norm_num [u64LE])
  have h5 : buf (p + 5) = v / 1099511627776 % 256 := h 5 (by norm_num [u64LE])
  have h6 : buf (p + 6) = v / 281474976710656 % 256 :=
    h 6 (by norm_num [u64LE])
  have h7 : buf (p + 7) = v / 72057594037927936 % 256 :=
    h 7 (by norm_num [u64LE])
  unfold readU64
  rw [show p + 0 = p from rfl] at h0
  rw [h0, h1, h2, h3, h4, h5, h6, h7]
  omega

lemma readU32_bytesAt {buf : ℕ → ℕ} {p v : ℕ} (h : bytesAt buf p (u32LE v))
    (hv : v < 4294967296) : readU32 buf p = v := by
  have h0 : buf (p + 0) = v % 256 := h 0 (by norm_num [u32LE])
  have h1 : buf (p + 1) = v / 256 % 256 := h 1 (by norm_num [u32LE])
  have h2 : buf (p + 2) = v / 65536 % 256 := h 2 (by norm_num [u32LE])
  have h3 : buf (p + 3) = v / 16777216 % 256 := h 3 (by norm_num [u32LE])
  unfold readU32
  rw [show p + 0 = p from rfl] at h0
  rw [h0, h1, h2, h3]
  omega

lemma readBytes_bytesAt {buf : ℕ → ℕ} {bs : List ℕ} :
    ∀ p, bytesAt buf p bs → readBytes buf p bs.length = bs := by
  induction bs with
  | nil => intro p _; rfl
  | cons b rest ih =>
    intro p h
    have hhead : buf (p + 0) = b := h 0 (by simp)
    have htail : bytesAt buf (p + 1) rest := by
      intro k hk
      have := h (k + 1) (by simp; omega)
      rwa [show p + (k + 1) = p + 1 + k by omega,
        show (b :: rest).getD (k + 1) 0 = rest.getD k 0 from rfl] at this
    show (List.range (rest.length + 1)).map (fun t => buf (p + t)) = b :: rest
    rw [List.range_succ_eq_map, List.map_cons, List.map_map]
    rw [show buf (p + 0) = b from hhead]
    congr 1
    calc List.map ((fun t => buf (p + t)) ∘ Nat.succ) (List.range rest.length)
        = List.map (fun t => buf (p + 1 + t)) (List.range rest.length) := by
          apply List.map_congr_left
          intro t _
          simp only [Function.comp_apply]
          congr 1
          omega
      _ = readBytes buf (p + 1) rest.length := rfl
      _ = rest := ih (p + 1) htail

lemma skippable_typeOf_lt {v : GgufValue} (hv : skippableValue v) :
    ggufTypeOf v < 4294967296 := by
  cases v with
  | scalar t bytes =>
    obtain ⟨ht, _⟩ := hv
    simp only [ggufTypeOf]
    unfold ggufScalarOK at ht
    omega
  | str s => norm_num [ggufTypeOf]
  | arr t elems => norm_num [ggufTypeOf]

lemma skippable_str_of_typeOf8 {v : GgufValue} (hv : skippableValue v)
    (ht : ggufTypeOf v = 8) :
    ∃ s, v = .str s ∧ s.length < 18446744073709551616 := by
  cases v with
  | scalar t bytes =>
    obtain ⟨hsc, _⟩ := hv
    simp only [ggufTypeOf] at ht
    unfold ggufScalarOK at hsc
    omega
  | str s => exact ⟨s, rfl, hv⟩
  | arr t elems =>
    simp only [ggufTypeOf] at ht
    omega

lemma skippable_scalar_len {v : GgufValue} {t : ℕ} (hv : skippableValue v)
    (hsc : ggufScalarOK t) (ht : ggufTypeOf v = t) :
    (serializeValue v).length = scalarWidth t := by
  cases v with
  | scalar t' bytes =>
    obtain ⟨_, hlen⟩ := hv
    simp only [ggufTypeOf] at ht
    subst ht
    exact hlen
  | str s =>
    simp only [ggufTypeOf] at ht
    unfold ggufScalarOK at hsc
    omega
  | arr t' elems =>
    simp only [ggufTypeOf] at ht
    unfold ggufScalarOK at hsc
    omega

lemma gguf_skip_array_elems_spec (buf : ℕ → ℕ) (size t : ℕ)
    (ht : t = 4 ∨ t = 5 ∨ t = 6 ∨ t = 12 ∨ t = 8) :
    ∀ elems p,
      (∀ e ∈ elems,
        ggufTypeOf e = t ∧
          (match e with
           | .scalar t' bytes => ggufScalarOK t' ∧ bytes.length = scalarWidth t'
           | .str s => s.length < 18446744073709551616
           | .arr _ _ => False)) →
      bytesAt buf p (serializeValueList elems) →
      p + (serializeValueList elems).length ≤ size →
      gguf_skip_array_elems buf size t elems.length p =
        .ok (p + (serializeValueList elems).length) := by
  intro elems
  induction elems with
  | nil =>
    intro p _ _ _
    simp [gguf_skip_array_elems, serializeValueList]
  | cons e rest ih =>
    intro p helems hbytes hsize
    obtain ⟨hety, hesk⟩ := helems e (by simp)
    have hrest : ∀ e' ∈ rest,
        ggufTypeOf e' = t ∧
          (match e' with
           | .scalar t' bytes => ggufScalarOK t' ∧ bytes.length = scalarWidth t'
           | .str s => s.length < 18446744073709551616
           | .arr _ _ => False) :=
      fun e' he' => helems e' (List.mem_cons_of_mem _ he')
    rw [serializeValueList] at hbytes hsize ⊢
    obtain ⟨hb1, hb2⟩ := bytesAt_append.mp hbytes
    rw [List.length_append] at hsize ⊢
    show gguf_skip_array_elems buf size t (rest.length + 1) p = _
    rw [gguf_skip_array_elems]
    cases e with
    | scalar t' bytes =>
      obtain ⟨hsc, hlen⟩ := hesk
      simp only [ggufTypeOf] at hety
      subst hety
      have hser : serializeValue (GgufValue.scalar t' bytes) = bytes := by
        rw [serializeValue]
      rw [hser] at hb1 hb2 hsize ⊢
      rcases ht with h | h | h | h | h
      all_goals subst h
      · rw [if_pos (by norm_num)]
        have hw : bytes.length = 4 := by rw [hlen]; rfl
        rw [ih (p + 4) hrest (by rwa [hw] at hb2) (by omega)]
        congr 1
        omega
      · rw [if_pos (by norm_num)]
        have hw : bytes.length = 4 := by rw [hlen]; rfl
        rw [ih (p + 4) hrest (by rwa [hw] at hb2) (by omega)]
        congr 1
        omega
      · rw [if_pos (by norm_num)]
        have hw : bytes.length = 4 := by rw [hlen]; rfl
        rw [ih (p + 4) hrest (by rwa [hw] at hb2) (by omega)]
        congr 1
        omega
      · rw [if_neg (by norm_num), if_pos (by norm_num)]
        have hw : bytes.length = 8 := by rw [hlen]; rfl
        rw [ih (p + 8) hrest (by rwa [hw] at hb2) (by omega)]
        congr 1
        omega
      · exact absurd hsc (by unfold ggufScalarOK; omega)
    | str s =>
      simp only [ggufTypeOf] at hety
      have hty : t = 8 := hety.symm
      subst hty
      have hser : serializeValue (GgufValue.str s) = u64LE s.length ++ s := by
        rw [serializeValue]
      rw [hser] at hb1 hb2 hsize ⊢
      rw [List.length_append] at hsize ⊢
      have hslen : (u64LE s.length).length = 8 := rfl
      rw [hslen] at hsize ⊢
      obtain ⟨hb1a, hb1b⟩ := bytesAt_append.mp hb1
      have hread : readU64 buf p = s.length := readU64_bytesAt hb1a hesk
      rw [if_neg (by norm_num), if_neg (by norm_num), if_pos rfl,
        if_neg (by omega), hread, if_neg (by omega)]
      rw [show p + 8 + s.length = p + (8 + s.length) from by omega]
      rw [ih (p + (8 + s.length)) hrest
        (by rw [List.length_append, hslen] at hb2; exact hb2) (by omega)]
      congr 1
      omega
    | arr t' elems' => exact hesk.elim

lemma gguf_skip_unknown_value_spec (buf : ℕ → ℕ) (size : ℕ)
    (v : GgufValue) (vpos : ℕ) (hv : skippableValue v)
    (hb : bytesAt buf vpos (serializeValue v))
    (hsz : vpos + (serializeValue v).length ≤ size) :
    gguf_skip_unknown_value buf size (ggufTypeOf v) vpos =
      .ok (vpos + (serializeValue v).length) := by
  cases v with
  | scalar t bytes =>
    obtain ⟨hsc, hlen⟩ := hv
    simp only [ggufTypeOf]
    rw [show serializeValue (GgufValue.scalar t bytes) = bytes from by
      rw [serializeValue]]
    unfold gguf_skip_unknown_value
    unfold ggufScalarOK at hsc
    unfold scalarWidth at hlen
    rcases hsc with h | h | h | h | h | h | h | h | h | h | h
    all_goals subst h
    all_goals norm_num at hlen ⊢
    all_goals rw [hlen]
  | str s =>
    simp only [ggufTypeOf]
    rw [show serializeValue (GgufValue.str s) = u64LE s.length ++ s from by
      rw [serializeValue]] at hb ⊢
    obtain ⟨hba, _⟩ := bytesAt_append.mp hb
    unfold gguf_skip_unknown_value
    norm_num
    rw [readU64_bytesAt hba hv]
    have h8len : (u64LE s.length).length = 8 := rfl
    simp only [List.length_append, h8len]
    omega
  | arr t elems =>
    obtain ⟨htOK, hlenOK, helems⟩ := hv
    simp only [ggufTypeOf]
    rw [show serializeValue (GgufValue.arr t elems) =
        u32LE t ++ u64LE elems.length ++ serializeValueList elems from by
      rw [serializeValue]] at hb ⊢
    unfold gguf_skip_unknown_value
    norm_num
    obtain ⟨hb12, hbrest⟩ := bytesAt_append.mp hb
    obtain ⟨hb4, hb8⟩ := bytesAt_append.mp hb12
    have h32 : readU32 buf vpos = t := readU32_bytesAt hb4 (by omega)
    have h64 : readU64 buf (vpos + 4) = elems.length := by
      have : (u32LE t).length = 4 := rfl
      rw [this] at hb8
      exact readU64_bytesAt hb8 hlenOK
    rw [h32, h64]
    have hpos12 : vpos + (u32LE t ++ u64LE elems.length).length = vpos + 12 := by
      simp [u32LE, u64LE]
    rw [hpos12] at hbrest
    have h4len : (u32LE t).length = 4 := rfl
    have h8len : (u64LE elems.length).length = 8 := rfl
    have harr := gguf_skip_array_elems_spec buf size t htOK elems (vpos + 12)
      helems hbrest (by
        rw [show serializeValue (GgufValue.arr t elems) =
            u32LE t ++ u64LE elems.length ++ serializeValueList elems from by
          rw [serializeValue]] at hsz
        simp only [List.length_append, h4len, h8len] at hsz
        omega)
    rw [harr]
    congr 1
    simp only [List.length_append, h4len, h8len]
    omega

lemma gguf_parse_metadata_entry_spec (buf : ℕ → ℕ) (size : ℕ)
    (key : List ℕ) (v : GgufValue) (vpos : ℕ) (hv : skippableValue v)
    (hb : bytesAt buf vpos (serializeValue v))
    (hsz : vpos + (serializeValue v).length ≤ size) :
    gguf_parse_metadata_entry buf size key (ggufTypeOf v) vpos =
      .ok (vpos + (serializeValue v).length) := by
  have hstr : ggufTypeOf v = 8 →
      (Except.ok (vpos + 8 + readU64 buf vpos) : Except ℤ ℕ) =
        .ok (vpos + (serializeValue v).length) := by
    intro ht
    obtain ⟨s, rfl, hslt⟩ := skippable_str_of_typeOf8 hv ht
    rw [show serializeValue (GgufValue.str s) = u64LE s.length ++ s from by
      rw [serializeValue]] at hb ⊢
    obtain ⟨hba, _⟩ := bytesAt_append.mp hb
    rw [readU64_bytesAt hba hslt]
    have h8len : (u64LE s.length).length = 8 := rfl
    simp only [List.length_append, h8len]
    congr 1
    omega
  have hu32 : ggufTypeOf v = 4 →
      (Except.ok (vpos + 4) : Except ℤ ℕ) =
        .ok (vpos + (serializeValue v).length) := by
    intro ht
    have := skippable_scalar_len hv (by norm_num [ggufScalarOK]) ht
    rw [this]
    norm_num [scalarWidth]
  unfold gguf_parse_metadata_entry
  by_cases h1 : key = generalNameKey ∧ ggufTypeOf v = 8
  · rw [if_pos h1]; exact hstr h1.2
  · rw [if_neg h1]
    by_cases h2 : key = generalArchKey ∧ ggufTypeOf v = 8
    · rw [if_pos h2]; exact hstr h2.2
    · rw [if_neg h2]
      by_cases h3 : key = ctxLenKey ∧ ggufTypeOf v = 4
      · rw [if_pos h3]; exact hu32 h3.2
      · rw [if_neg h3]
        by_cases h4 : key = embdLenKey ∧ ggufTypeOf v = 4
        · rw [if_pos h4]; exact hu32 h4.2
        · rw [if_neg h4]
          by_cases h5 : key = blockCountKey ∧ ggufTypeOf v = 4
          · rw [if_pos h5]; exact hu32 h5.2
          · rw [if_neg h5]
            by_cases h6 : key = headCountKey ∧ ggufTypeOf v = 4
            · rw [if_pos h6]; exact hu32 h6.2
            · rw [if_neg h6]
              by_cases h7 : key = headCountKvKey ∧ ggufTypeOf v = 4
              · rw [if_pos h7]; exact hu32 h7.2
              · rw [if_neg h7]
                by_cases h8 : key = ffLenKey ∧ ggufTypeOf v = 4
                · rw [if_pos h8]; exact hu32 h8.2
                · rw [if_neg h8]
                  by_cases h9 : key = ropeDimKey ∧ ggufTypeOf v = 4
                  · rw [if_pos h9]; exact hu32 h9.2
                  · rw [if_neg h9]
                    exact gguf_skip_unknown_value_spec buf size v vpos hv hb hsz

lemma gguf_parse_metadata_loop_spec (buf : ℕ → ℕ) (size : ℕ)
    (entries : List GgufEntry) :
    ∀ pos : ℕ, (∀ e ∈ entries, ggufEntryOK e) →
      bytesAt buf pos (serializeEntries entries) →
      pos + (serializeEntries entries).length < size →
      gguf_parse_metadata_loop buf size entries.length pos =
        .ok (pos + (serializeEntries entries).length) := by
  induction entries with
  | nil =>
    intro pos _ _ _
    simp [gguf_parse_metadata_loop, serializeEntries]
  | cons e rest ih =>
    intro pos hok hb hsz
    obtain ⟨hke, hve⟩ := hok e (List.mem_cons_self e rest)
    have hrestOK : ∀ e' ∈ rest, ggufEntryOK e' :=
      fun e' he' => hok e' (List.mem_cons_of_mem _ he')
    rw [show serializeEntries (e :: rest) =
        serializeEntry e ++ serializeEntries rest from rfl] at hb hsz ⊢
    obtain ⟨hbe, hbrest⟩ := bytesAt_append.mp hb
    rw [show serializeEntry e = u64LE e.key.length ++ e.key ++
        u32LE (ggufTypeOf e.val) ++ serializeValue e.val from rfl] at hbe
    obtain ⟨hb1, hbv⟩ := bytesAt_append.mp hbe
    obtain ⟨hb2, hbt⟩ := bytesAt_append.mp hb1
    obtain ⟨hbk64, _⟩ := bytesAt_append.mp hb2
    have h8 : (u64LE e.key.length).length = 8 := rfl
    have h4 : (u32LE (ggufTypeOf e.val)).length = 4 := rfl
    have hek : (serializeEntry e).length =
        12 + e.key.length + (serializeValue e.val).length := by
      rw [show serializeEntry e = u64LE e.key.length ++ e.key ++
          u32LE (ggufTypeOf e.val) ++ serializeValue e.val from rfl]
      simp only [List.length_append, h8, h4]
      omega
    have hkey : readU64 buf pos = e.key.length := readU64_bytesAt hbk64 hke
    have hbt' : bytesAt buf (pos + (8 + e.key.length))
        (u32LE (ggufTypeOf e.val)) := by
      have hl : (u64LE e.key.length ++ e.key).length = 8 + e.key.length := by
        simp only [List.length_append, h8]
      rwa [hl] at hbt
    have htype : readU32 buf (pos + 8 + e.key.length) = ggufTypeOf e.val := by
      rw [show pos + 8 + e.key.length = pos + (8 + e.key.length) from by omega]
      exact readU32_bytesAt hbt' (skippable_typeOf_lt hve)
    have hbv' : bytesAt buf (pos + 8 + e.key.length + 4)
        (serializeValue e.val) := by
      have hl : (u64LE e.key.length ++ e.key ++
          u32LE (ggufTypeOf e.val)).length = 8 + e.key.length + 4 := by
        simp only [List.length_append, h8, h4]
      rw [hl] at hbv
      rwa [show pos + (8 + e.key.length + 4) =
        pos + 8 + e.key.length + 4 from by omega] at hbv
    rw [List.length_append, hek] at hsz
    rw [List.length_cons]
    simp only [gguf_parse_metadata_loop]
    rw [List.length_append]
    rw [hkey, htype]
    rw [if_neg (by omega)]
    have hentry := gguf_parse_metadata_entry_spec buf size
      (readBytes buf (pos + 8) e.key.length) e.val
      (pos + 8 + e.key.length + 4) hve hbv' (by omega)
    rw [hentry]
    show (if size ≤ pos + 8 + e.key.length + 4 + (serializeValue e.val).length
        then (Except.error (-22) : Except ℤ ℕ)
        else gguf_parse_metadata_loop buf size rest.length
          (pos + 8 + e.key.length + 4 + (serializeValue e.val).length)) =
      .ok (pos + ((serializeEntry e).length + (serializeEntries rest).length))
    rw [if_neg (by omega)]
    have hbrest' : bytesAt buf
        (pos + 8 + e.key.length + 4 + (serializeValue e.val).length)
        (serializeEntries rest) := by
      rw [hek] at hbrest
      rwa [show pos + (12 + e.key.length + (serializeValue e.val).length) =
        pos + 8 + e.key.length + 4 + (serializeValue e.val).length from by
          omega] at hbrest
    rw [ih (pos + 8 + e.key.length + 4 + (serializeValue e.val).length)
      hrestOK hbrest' (by omega)]
    congr 1
    rw [hek]
    omega

/-- Witness for C1 at the concrete operands `mulMatWitA`, `mulMatWitB`:
the shape check passes, and output element `[j, i] = [1, 0]` (flat
offset `1`) is the dot product `1·7 + 2·8 = 23` of column 0 of A with
column 1 of B. -/
theorem ggml_mul_mat_spec_witness :
    (ggml_mul_mat mulMatWitA mulMatWitB).isSome = true ∧
    Option.map (fun c => GgmlTensorF32.data c 1)
      (ggml_mul_mat mulMatWitA mulMatWitB) = some 23 := by
  have h := ggml_mul_mat_spec mulMatWitA mulMatWitB
  have hsome : (ggml_mul_mat mulMatWitA mulMatWitB).isSome = true :=
    h.1.mpr rfl
  obtain ⟨c, hc⟩ := Option.isSome_iff_exists.mp hsome
  have hval := (h.2 c hc).2.2 1 0 (by decide) (by decide)
  refine ⟨hsome, ?_⟩
  rw [hc]
  simp only [Option.map_some']
  congr 1
  have : c.data 1 = c.data (0 * mulMatWitB.ne1 + 1) := by norm_num [mulMatWitB]
  rw [this, hval]
  norm_num [mulMatWitA, mulMatWitB, Finset.sum_range_succ]

/-- A one-entry metadata directory the code can skip: key `"x"`
(byte 120), value a `u8` scalar with byte 7. -/
def gguf8WitEntry : GgufEntry := ⟨[120], .scalar 0 [7]⟩

/-- A 40-byte buffer whose metadata section (offset 24 on) serializes
`gguf8WitEntry`: `key_len = 1 : u64`, key byte `120`,
`value_type = 0 : u32`, value byte `7`. -/
def gguf8WitBuf : ℕ → ℕ := fun n =>
  if n = 24 then 1 else if n = 32 then 120 else if n = 37 then 7 else 0

/-- A one-entry metadata directory that is well-formed per the GGUF
format but that the code rejects: key `"a"` (byte 97), value an array
(`value_type 9`) of one `u8` element. -/
def gguf8CexEntry : GgufEntry := ⟨[97], .arr 0 [.scalar 0 [0]]⟩

/-- A buffer whose metadata section serializes `gguf8CexEntry`:
`key_len = 1 : u64`, key byte `97`, `value_type = 9 : u32`,
`elem_type = 0 : u32`, `length = 1 : u64`, one element byte `0`. -/
def gguf8CexBuf : ℕ → ℕ := fun n =>
  if n = 24 then 1 else if n = 32 then 97 else if n = 33 then 9
  else if n = 41 then 1 else 0

/-- **C8 (amended).** `gguf_parse_metadata` succeeds on every metadata
directory whose values the skip switch supports — scalars of the eleven
scalar types, strings, and arrays of element type `u32`, `i32`, `f32`,
`f64` or `string` — advancing the read pointer by exactly the
serialized size of each record, provided at least one byte follows the
directory (`ptr >= end` at the end of an iteration is `-EINVAL`).  Not
every well-formed directory of the format is handled: the inner array
switch returns `-EINVAL` for element types `u8`, `i8`, `u16`, `i16`,
`bool`, `u64`, `i64` and nested arrays (see the counterexample). -/
theorem gguf_metadata_skip_exact (buf : ℕ → ℕ) (size : ℕ)
    (entries : List GgufEntry)
    (hok : ∀ e ∈ entries, ggufEntryOK e)
    (hb : bytesAt buf 24 (serializeEntries entries))
    (hsz : 24 + (serializeEntries entries).length < size) :
    gguf_parse_metadata buf size entries.length =
      .ok (24 + (serializeEntries entries).length) := by
  unfold gguf_parse_metadata
  exact gguf_parse_metadata_loop_spec buf size entries 24 hok hb hsz

/-- Witness for C8: on the concrete 40-byte buffer `gguf8WitBuf`
holding the single record `gguf8WitEntry` (14 serialized bytes),
parsing one metadata entry succeeds and returns offset `24 + 14 = 38`. -/
theorem gguf_metadata_skip_exact_witness :
    gguf_parse_metadata gguf8WitBuf 40 1 = .ok 38 := by
  have hser : serializeEntries [gguf8WitEntry] =
      [1, 0, 0, 0, 0, 0, 0, 0, 120, 0, 0, 0, 0, 7] := by
    simp [serializeEntries, serializeEntry, gguf8WitEntry, serializeValue,
      ggufTypeOf, u64LE, u32LE]
  have h := gguf_metadata_skip_exact gguf8WitBuf 40 [gguf8WitEntry]
    (by
      intro e he
      rw [List.mem_singleton] at he
      subst he
      refine ⟨by norm_num [gguf8WitEntry], ?_⟩
      show ggufScalarOK 0 ∧ [(7 : ℕ)].length = scalarWidth 0
      refine ⟨Or.inl rfl, ?_⟩
      norm_num [scalarWidth])
    (by
      rw [hser]
      intro k hk
      norm_num at hk
      interval_cases k <;> rfl)
    (by rw [hser]; norm_num)
  rw [show [gguf8WitEntry].length = 1 from rfl] at h
  rw [hser] at h
  norm_num at h
  exact h

/-- Counterexample to C8 as stated: the claim promises correct skipping
for arrays of *every* element type, but an array of `u8` — well-formed
per the format (`wfValue`) — makes `gguf_parse_metadata` fail with
`-EINVAL` (the inner switch only handles element types 4, 5, 6, 12, 8). -/
theorem gguf_metadata_array_u8_counterexample :
    wfValue (GgufValue.arr 0 [GgufValue.scalar 0 [0]]) ∧
    bytesAt gguf8CexBuf 24 (serializeEntries [gguf8CexEntry]) ∧
    24 + (serializeEntries [gguf8CexEntry]).length < 100 ∧
    gguf_parse_metadata gguf8CexBuf 100 1 = .error (-22) := by
  have hser : serializeEntries [gguf8CexEntry] =
      [1, 0, 0, 0, 0, 0, 0, 0, 97, 9, 0, 0, 0,
       0, 0, 0, 0, 1, 0, 0, 0, 0, 0, 0, 0, 0] := by
    simp [serializeEntries, serializeEntry, gguf8CexEntry, serializeValue,
      serializeValueList, ggufTypeOf, u64LE, u32LE]
  refine ⟨?_, ?_, ?_, rfl⟩
  · simp only [wfValue, wfElems, ggufTypeOf]
    norm_num [ggufScalarOK, scalarWidth]
  · rw [hser]
    intro k hk
    norm_num at hk
    interval_cases k <;> rfl
  · rw [hser]; norm_num

end Llamux
